import Mathlib

/-!
Verification of the weather-alert workflow engine core.

The Go source is embedded shallowly:
* `map[string]any` data bags become association lists of `Value`s; Go map
  insertion is modelled by appending and lookup by last-occurrence search
  (the last insert wins, as for a Go map).
* Go `float64` values are modelled by exact rationals (`Rat`); every numeric
  literal appearing in the verified scenarios is dyadic, so the modelled
  comparisons and the `%.1f` rendering agree with IEEE-754 semantics there.
* Wall-clock timestamps (`time.Now`) and the generated execution UUID are
  outside the embedding; the corresponding string fields are fixed to `""`
  and durations to `0`.  No verified claim mentions them.
* The outbound HTTP weather call (`weather.Client.GetWeather`) is an external
  collaborator and is modelled as an oracle parameter returning either a
  temperature or an error message.
-/

namespace WeatherAlert

/-- A Go `any` value as stored in the engine's `map[string]any` data bags. -/
inductive Value where
  | vStr (s : String)
  | vInt (n : Int)
  | vNum (q : Rat)
  | vBool (b : Bool)
  | vMap (entries : List (String × Value))
  | vList (elems : List Value)

/-- Lookup in a Go map modelled as an association list: the last binding of a
key wins, matching the overwrite semantics of Go map insertion. -/
def mapGet {α : Type} : List (String × α) → String → Option α
  | [], _ => none
  | (k', v) :: rest, k =>
    match mapGet rest k with
    | some w => some w
    | none => if k' == k then some v else none

/-- Go map insert: append the binding; `mapGet` makes the last binding win. -/
def mapSet {α : Type} (m : List (String × α)) (k : String) (v : α) : List (String × α) :=
  m ++ [(k, v)]

/-- `models.NodeData`: label, description and free-form metadata of a node. -/
structure NodeData where
  label : String
  description : String
  metadata : List (String × Value)

/-- `models.Node`: a node definition (position is UI-only and omitted). -/
structure NodeModel where
  id : String
  type : String
  data : NodeData

/-- `models.Edge`: the fields the validator and engine read
(display-only fields are omitted). -/
structure EdgeModel where
  id : String
  source : String
  target : String
  sourceHandle : String

/-- `models.WorkflowInput` (the inline-workflow JSONB override is handled
before the engine runs and is not part of the core embedding). -/
structure WorkflowInput where
  name : String
  email : String
  city : String
  threshold : Rat
  operator : String

/-- `models.Workflow`. -/
structure Workflow where
  id : String
  name : String
  version : Int
  nodes : List NodeModel
  edges : List EdgeModel

def nodeTypeStart : String := "start"
def nodeTypeForm : String := "form"
def nodeTypeIntegration : String := "integration"
def nodeTypeCondition : String := "condition"
def nodeTypeEmail : String := "email"
def nodeTypeEnd : String := "end"

def statusRunning : String := "running"
def statusCompleted : String := "completed"
def statusFailed : String := "failed"

def operatorGreaterThan : String := "greater_than"
def operatorLessThan : String := "less_than"
def operatorEquals : String := "equals"
def operatorGreaterThanOrEqual : String := "greater_than_or_equal"
def operatorLessThanOrEqual : String := "less_than_or_equal"

/-- The distinct error kinds produced by `validateWorkflowStructure`
(`ErrInvalidWorkflowStructure`, `ErrEmptyNodeID`, ...). -/
inductive ValidationError where
  | invalidWorkflowStructure
  | emptyNodeID
  | duplicateNodeID (id : String)
  | invalidNodeType (id : String)
  | missingStartNode
  | missingEndNode
  | startNodePosition
  | endNodePosition
  | emptyEdgeID
  | duplicateEdgeID (id : String)
  | invalidEdgeConnection (id : String)
  | edgeToUnknownNode (id ref : String)
deriving DecidableEq

/-- The per-node loop of `validateWorkflowStructure`: tracks start/end
presence and their (last) indices, and short-circuits on the first
empty-id / duplicate-id / missing-type violation, in source order. -/
def nodesLoop : List NodeModel → Int → Bool → Bool → Int → Int → List String →
    Except ValidationError (Bool × Bool × Int × Int × List String)
  | [], _, hasStart, hasEnd, sIdx, eIdx, seen => .ok (hasStart, hasEnd, sIdx, eIdx, seen)
  | n :: rest, i, hasStart, hasEnd, sIdx, eIdx, seen =>
    let hasStart' := hasStart || (n.type == nodeTypeStart)
    let sIdx' := if n.type == nodeTypeStart then i else sIdx
    let hasEnd' := hasEnd || (n.type == nodeTypeEnd)
    let eIdx' := if n.type == nodeTypeEnd then i else eIdx
    if n.id == "" then .error .emptyNodeID
    else if seen.contains n.id then .error (.duplicateNodeID n.id)
    else if n.type == "" then .error (.invalidNodeType n.id)
    else nodesLoop rest (i + 1) hasStart' hasEnd' sIdx' eIdx' (n.id :: seen)

/-- The per-edge loop of `validateWorkflowStructure`: empty id, duplicate id,
empty endpoints, then dangling source / target, in source order. -/
def edgesLoop : List EdgeModel → List String → List String → Option ValidationError
  | [], _, _ => none
  | e :: rest, nodeIDs, seen =>
    if e.id == "" then some .emptyEdgeID
    else if seen.contains e.id then some (.duplicateEdgeID e.id)
    else if e.source == "" || e.target == "" then some (.invalidEdgeConnection e.id)
    else if !(nodeIDs.contains e.source) then some (.edgeToUnknownNode e.id e.source)
    else if !(nodeIDs.contains e.target) then some (.edgeToUnknownNode e.id e.target)
    else edgesLoop rest nodeIDs (e.id :: seen)

/-- `workflow.validateWorkflowStructure`. -/
def validateWorkflowStructure (nodes : List NodeModel) (edges : List EdgeModel) :
    Option ValidationError :=
  if nodes.length == 0 then some .invalidWorkflowStructure
  else
    match nodesLoop nodes 0 false false (-1) (-1) [] with
    | .error e => some e
    | .ok (hasStart, hasEnd, sIdx, eIdx, seen) =>
      if !hasStart then some .missingStartNode
      else if !hasEnd then some .missingEndNode
      else if sIdx != 0 then some .startNodePosition
      else if eIdx != (nodes.length : Int) - 1 then some .endNodePosition
      else edgesLoop edges seen []

/-! ### Characterization of the validator -/

/-- The start-node test used by the validator loop. -/
def isStartNode (n : NodeModel) : Bool := n.type == nodeTypeStart

/-- The end-node test used by the validator loop. -/
def isEndNode (n : NodeModel) : Bool := n.type == nodeTypeEnd

/-- Index of the last element satisfying `p`, starting from index `i`,
with default `acc` — the value `startNodeIndex` / `endNodeIndex` hold after
the validator's node loop. -/
def lastIdxFrom (p : NodeModel → Bool) : List NodeModel → Int → Int → Int
  | [], _, acc => acc
  | n :: rest, i, acc => lastIdxFrom p rest (i + 1) (if p n then i else acc)

/-- The acceptance condition of the validator's per-node checks relative to
an already-seen id set. -/
def goodNodes : List NodeModel → List String → Bool
  | [], _ => true
  | n :: rest, seen =>
    !(n.id == "") && !(seen.contains n.id) && !(n.type == "") && goodNodes rest (n.id :: seen)

theorem contains_true_iff (l : List String) (a : String) : l.contains a = true ↔ a ∈ l := by
  simp

theorem contains_false_iff (l : List String) (a : String) : l.contains a = false ↔ a ∉ l := by
  constructor
  · intro h hm
    rw [(contains_true_iff l a).2 hm] at h
    cases h
  · intro h
    cases hc : l.contains a with
    | false => rfl
    | true => exact absurd ((contains_true_iff l a).1 hc) h

theorem nodesLoop_eq_ok (l : List NodeModel) :
    ∀ i hs he si ei seen, goodNodes l seen = true →
      nodesLoop l i hs he si ei seen =
        .ok (hs || l.any isStartNode, he || l.any isEndNode,
             lastIdxFrom isStartNode l i si, lastIdxFrom isEndNode l i ei,
             l.reverse.map NodeModel.id ++ seen) := by
  induction l with
  | nil =>
    intro i hs he si ei seen _
    show Except.ok _ = _
    simp [lastIdxFrom]
  | cons n rest ih =>
    intro i hs he si ei seen hg
    simp only [goodNodes, Bool.and_eq_true, Bool.not_eq_true'] at hg
    obtain ⟨⟨⟨h1, h2⟩, h3⟩, h4⟩ := hg
    simp only [nodesLoop, h1, h2, h3, if_false, Bool.false_eq_true]
    rw [ih _ _ _ _ _ _ h4]
    simp only [List.any_cons, List.reverse_cons, List.map_append, List.map_cons,
      List.map_nil, lastIdxFrom, isStartNode, isEndNode]
    congr 2
    · rw [Bool.or_assoc]
    · congr 1
      · rw [Bool.or_assoc]
      · simp

theorem nodesLoop_eq_error (l : List NodeModel) :
    ∀ i hs he si ei seen, goodNodes l seen = false →
      ∃ e, nodesLoop l i hs he si ei seen = .error e ∧
        (e = .emptyNodeID ∨ (∃ s, e = .duplicateNodeID s) ∨ (∃ s, e = .invalidNodeType s)) := by
  induction l with
  | nil => intro i hs he si ei seen hg; simp [goodNodes] at hg
  | cons n rest ih =>
    intro i hs he si ei seen hg
    simp only [goodNodes, Bool.and_eq_false_iff, Bool.not_eq_false'] at hg
    by_cases h1 : n.id == ""
    · exact ⟨.emptyNodeID, by simp [nodesLoop, h1], .inl rfl⟩
    · by_cases h2 : seen.contains n.id
      · have h2' : n.id ∈ seen := (contains_true_iff seen n.id).1 h2
        refine ⟨.duplicateNodeID n.id, ?_, .inr (.inl ⟨n.id, rfl⟩)⟩
        simp [nodesLoop, h1, h2, h2']
      · have h2' : n.id ∉ seen :=
          (contains_false_iff seen n.id).1 (Bool.eq_false_iff.2 h2)
        by_cases h3 : n.type == ""
        · refine ⟨.invalidNodeType n.id, ?_, .inr (.inr ⟨n.id, rfl⟩)⟩
          simp [nodesLoop, h1, h2, h2', h3]
        · have h4 : goodNodes rest (n.id :: seen) = false := by
            rcases hg with (((h | h) | h) | h) <;>
              first
              | exact absurd h h1
              | exact absurd h h2
              | exact absurd h h3
              | exact h
          obtain ⟨e, he, hshape⟩ := ih (i + 1) (hs || isStartNode n) (he || isEndNode n)
            (if isStartNode n then i else si) (if isEndNode n then i else ei)
            (n.id :: seen) h4
          refine ⟨e, ?_, hshape⟩
          simpa [nodesLoop, h1, h2, h2', h3, isStartNode, isEndNode] using he

theorem goodNodes_iff (l : List NodeModel) :
    ∀ seen, goodNodes l seen = true ↔
      (∀ n ∈ l, n.id ≠ "" ∧ n.type ≠ "" ∧ n.id ∉ seen) ∧ (l.map NodeModel.id).Nodup := by
  induction l with
  | nil => intro seen; simp [goodNodes]
  | cons n rest ih =>
    intro seen
    simp only [goodNodes, Bool.and_eq_true, Bool.not_eq_true', beq_eq_false_iff_ne,
      ne_eq, List.map_cons, List.nodup_cons, List.mem_map]
    rw [ih (n.id :: seen)]
    constructor
    · rintro ⟨⟨⟨h1, h2⟩, h3⟩, h4, h5⟩
      have h2' : n.id ∉ seen := (contains_false_iff seen n.id).1 h2
      refine ⟨?_, ?_, h5⟩
      · intro m hm
        rcases List.mem_cons.mp hm with rfl | hm'
        · exact ⟨h1, h3, h2'⟩
        · obtain ⟨ha, hb, hc⟩ := h4 m hm'
          exact ⟨ha, hb, fun hmem => hc (List.mem_cons_of_mem _ hmem)⟩
      · rintro ⟨m, hm, hmid⟩
        exact (h4 m hm).2.2 (hmid ▸ List.mem_cons_self _ _)
    · rintro ⟨h4, h5, h6⟩
      obtain ⟨h1, h3, h2'⟩ := h4 n (List.mem_cons_self _ _)
      refine ⟨⟨⟨h1, ?_⟩, h3⟩, ?_, h6⟩
      · exact (contains_false_iff seen n.id).2 h2'
      · intro m hm
        obtain ⟨ha, hb, hc⟩ := h4 m (List.mem_cons_of_mem _ hm)
        refine ⟨ha, hb, ?_⟩
        intro hmem
        rcases List.mem_cons.mp hmem with h | h
        · exact h5 ⟨m, hm, h⟩
        · exact hc h

theorem lastIdxFrom_of_none (p : NodeModel → Bool) (l : List NodeModel) :
    ∀ i acc, (∀ n ∈ l, p n = false) → lastIdxFrom p l i acc = acc := by
  induction l with
  | nil => intro i acc _; rfl
  | cons n rest ih =>
    intro i acc h
    have hn : p n = false := h n (List.mem_cons_self _ _)
    simp only [lastIdxFrom, hn, if_false, Bool.false_eq_true]
    exact ih _ _ fun m hm => h m (List.mem_cons_of_mem _ hm)

theorem lastIdxFrom_bounds (p : NodeModel → Bool) (l : List NodeModel) :
    ∀ i acc, lastIdxFrom p l i acc = acc ∨
      (i ≤ lastIdxFrom p l i acc ∧ lastIdxFrom p l i acc ≤ i + l.length - 1) := by
  induction l with
  | nil => intro i acc; exact .inl rfl
  | cons n rest ih =>
    intro i acc
    simp only [lastIdxFrom, List.length_cons]
    rcases ih (i + 1) (if p n then i else acc) with h | ⟨h1, h2⟩
    · rw [h]
      by_cases hp : p n
      · simp only [hp, if_true]
        right
        constructor
        · omega
        · have : (0 : Int) ≤ rest.length := Int.ofNat_nonneg _
          omega
      · simp [hp]
    · right
      constructor
      · omega
      · push_cast at h2 ⊢
        omega

theorem lastIdxFrom_ge_of_mem (p : NodeModel → Bool) (l : List NodeModel) :
    ∀ i acc m, m ∈ l → p m = true → i ≤ lastIdxFrom p l i acc := by
  induction l with
  | nil => intro _ _ _ h; simp at h
  | cons n rest ih =>
    intro i acc m hm hp
    simp only [lastIdxFrom]
    rcases List.mem_cons.mp hm with rfl | hm'
    · rcases lastIdxFrom_bounds p rest (i + 1) (if p m then i else acc) with h | ⟨h1, _⟩
      · rw [h, hp, if_pos rfl]
      · omega
    · have := ih (i + 1) (if p n then i else acc) m hm' hp
      omega

theorem lastIdxFrom_concat (p : NodeModel → Bool) (m : NodeModel) (l : List NodeModel) :
    ∀ i acc, lastIdxFrom p (l ++ [m]) i acc =
      if p m then i + l.length else lastIdxFrom p l i acc := by
  induction l with
  | nil =>
    intro i acc
    show lastIdxFrom p [] (i + 1) (if p m then i else acc) = _
    by_cases hp : p m <;> simp [lastIdxFrom, hp]
  | cons n rest ih =>
    intro i acc
    have hL : lastIdxFrom p ((n :: rest) ++ [m]) i acc
        = lastIdxFrom p (rest ++ [m]) (i + 1) (if p n then i else acc) := rfl
    have hR : lastIdxFrom p (n :: rest) i acc
        = lastIdxFrom p rest (i + 1) (if p n then i else acc) := rfl
    rw [hL, hR, ih]
    by_cases hp : p m
    · simp only [hp, if_true, List.length_cons]
      push_cast
      omega
    · simp [hp]

theorem startChecks_iff (l : List NodeModel) (hne : l ≠ []) :
    (l.any isStartNode = true ∧ lastIdxFrom isStartNode l 0 (-1) = 0) ↔
      (l.head?.map NodeModel.type = some nodeTypeStart ∧
        ∀ n ∈ l.tail, n.type ≠ nodeTypeStart) := by
  obtain ⟨n, rest, rfl⟩ := List.exists_cons_of_ne_nil hne
  have hunfold : lastIdxFrom isStartNode (n :: rest) 0 (-1)
      = lastIdxFrom isStartNode rest 1 (if isStartNode n then 0 else -1) := by
    show lastIdxFrom isStartNode rest (0 + 1) _ = _
    norm_num
  rw [hunfold]
  simp only [List.any_cons, List.head?_cons, Option.map_some', Option.some.injEq,
    List.tail_cons]
  constructor
  · rintro ⟨hany, hidx⟩
    have hrest : ∀ m ∈ rest, isStartNode m = false := by
      intro m hm
      by_contra hc
      have hp : isStartNode m = true := by
        cases h : isStartNode m with
        | false => exact absurd h hc
        | true => rfl
      have := lastIdxFrom_ge_of_mem isStartNode rest 1 (if isStartNode n then 0 else -1) m hm hp
      omega
    rw [lastIdxFrom_of_none _ _ _ _ hrest] at hidx
    by_cases hn : isStartNode n
    · refine ⟨by simpa [isStartNode] using hn, ?_⟩
      intro m hm
      have := hrest m hm
      simpa [isStartNode] using this
    · rw [if_neg hn] at hidx
      omega
  · rintro ⟨hhead, htail⟩
    have hn : isStartNode n = true := by simp [isStartNode, hhead]
    have hrest : ∀ m ∈ rest, isStartNode m = false := by
      intro m hm
      simpa [isStartNode] using htail m hm
    rw [lastIdxFrom_of_none _ _ _ _ hrest, hn, if_pos rfl]
    simp [hn]

theorem endChecks_iff (l : List NodeModel) (hne : l ≠ []) :
    (l.any isEndNode = true ∧ lastIdxFrom isEndNode l 0 (-1) = (l.length : Int) - 1) ↔
      l.getLast?.map NodeModel.type = some nodeTypeEnd := by
  cases hr : l.reverse with
  | nil => exact absurd (by simpa using congrArg List.reverse hr) hne
  | cons m rs =>
    have hl : l = rs.reverse ++ [m] := by
      have := congrArg List.reverse hr
      simpa using this
    subst hl
    rw [lastIdxFrom_concat]
    simp only [List.getLast?_concat, Option.map_some', Option.some.injEq,
      List.length_append, List.length_reverse, List.length_cons, List.length_nil]
    by_cases hm : isEndNode m
    · simp only [hm, if_true]
      constructor
      · intro _; simpa [isEndNode] using hm
      · intro _
        refine ⟨by simp [hm], ?_⟩
        push_cast
        omega
    · simp only [hm, if_false, Bool.false_eq_true]
      constructor
      · rintro ⟨hany, hidx⟩
        exfalso
        rcases lastIdxFrom_bounds isEndNode rs.reverse 0 (-1) with h | ⟨h1, h2⟩
        · rw [h] at hidx
          push_cast at hidx
          omega
        · rw [List.length_reverse] at h2
          push_cast at hidx h2
          omega
      · intro hend
        exact absurd (by simpa [isEndNode] using hend) hm

theorem edgesLoop_eq_none_iff (edges : List EdgeModel) (ids : List String) :
    ∀ seen, edgesLoop edges ids seen = none ↔
      ((∀ e ∈ edges, e.id ≠ "" ∧ e.id ∉ seen ∧ e.source ≠ "" ∧ e.target ≠ "" ∧
          e.source ∈ ids ∧ e.target ∈ ids) ∧ (edges.map EdgeModel.id).Nodup) := by
  induction edges with
  | nil => intro seen; simp [edgesLoop]
  | cons e rest ih =>
    intro seen
    simp only [edgesLoop]
    by_cases h1 : e.id == ""
    · simp only [h1, if_true]
      constructor
      · intro h; cases h
      · rintro ⟨h, _⟩
        exact absurd (by simpa using h1) (h e (List.mem_cons_self _ _)).1
    · by_cases h2 : seen.contains e.id
      · simp only [h1, h2, if_false, if_true, Bool.false_eq_true]
        constructor
        · intro h; cases h
        · rintro ⟨h, _⟩
          exact absurd ((contains_true_iff seen e.id).1 h2) (h e (List.mem_cons_self _ _)).2.1
      · by_cases h3 : e.source == "" || e.target == ""
        · simp only [h1, h2, h3, if_false, if_true, Bool.false_eq_true]
          constructor
          · intro h; cases h
          · rintro ⟨h, _⟩
            obtain ⟨_, _, hs, ht, _, _⟩ := h e (List.mem_cons_self _ _)
            rcases Bool.or_eq_true_iff.mp h3 with hh | hh
            · exact absurd (by simpa using hh) hs
            · exact absurd (by simpa using hh) ht
        · by_cases h4 : ids.contains e.source
          · by_cases h5 : ids.contains e.target
            · simp only [h1, h2, h3, h4, h5, if_false, Bool.false_eq_true,
                Bool.not_true, if_true]
              rw [ih (e.id :: seen)]
              simp only [List.map_cons, List.nodup_cons, List.mem_map]
              constructor
              · rintro ⟨h, hnodup⟩
                refine ⟨?_, ?_, hnodup⟩
                · intro f hf
                  rcases List.mem_cons.mp hf with rfl | hf'
                  · refine ⟨by simpa using h1, fun hm => absurd ((contains_true_iff seen f.id).2 hm) h2,
                      ?_, ?_, (contains_true_iff ids f.source).1 h4, (contains_true_iff ids f.target).1 h5⟩
                    · intro hc; exact (by simp [hc] at h3)
                    · intro hc; exact (by simp [hc] at h3)
                  · obtain ⟨ha, hb, hc, hd, he', hf'⟩ := h f hf'
                    exact ⟨ha, fun hm => hb (List.mem_cons_of_mem _ hm), hc, hd, he', hf'⟩
                · rintro ⟨f, hf, hfid⟩
                  exact (h f hf).2.1 (hfid ▸ List.mem_cons_self _ _)
              · rintro ⟨h, hni, hnodup⟩
                refine ⟨?_, hnodup⟩
                intro f hf
                obtain ⟨ha, hb, hc, hd, he', hf'⟩ := h f (List.mem_cons_of_mem _ hf)
                refine ⟨ha, ?_, hc, hd, he', hf'⟩
                intro hmem
                rcases List.mem_cons.mp hmem with h' | h'
                · exact hni ⟨f, hf, h'⟩
                · exact hb h'
            · simp only [h1, h2, h3, h4, h5, if_false, Bool.false_eq_true,
                Bool.not_true, Bool.not_false, if_true]
              constructor
              · intro h; cases h
              · rintro ⟨h, _⟩
                exact absurd (h e (List.mem_cons_self _ _)).2.2.2.2.2
                  ((contains_false_iff ids e.target).1 (Bool.eq_false_iff.2 h5))
          · simp only [h1, h2, h3, h4, if_false, Bool.false_eq_true, Bool.not_false, if_true]
            constructor
            · intro h; cases h
            · rintro ⟨h, _⟩
              exact absurd (h e (List.mem_cons_self _ _)).2.2.2.2.1
                ((contains_false_iff ids e.source).1 (Bool.eq_false_iff.2 h4))

theorem length_beq_zero_false {α : Type} (l : List α) (h : l ≠ []) :
    (l.length == 0) = false := by
  cases hq : l.length == 0 with
  | false => rfl
  | true => exact absurd (List.length_eq_zero.mp (by simpa using hq)) h

theorem validate_unfold_error (nodes : List NodeModel) (edges : List EdgeModel)
    (hne : (nodes.length == 0) = false) (e : ValidationError)
    (he : nodesLoop nodes 0 false false (-1) (-1) [] = .error e) :
    validateWorkflowStructure nodes edges = some e := by
  unfold validateWorkflowStructure
  rw [if_neg (by simp [hne]), he]

theorem validate_unfold_ok (nodes : List NodeModel) (edges : List EdgeModel)
    (hne : (nodes.length == 0) = false)
    (r : Bool × Bool × Int × Int × List String)
    (hr : nodesLoop nodes 0 false false (-1) (-1) [] = .ok r) :
    validateWorkflowStructure nodes edges =
      (if !r.1 then some .missingStartNode
       else if !r.2.1 then some .missingEndNode
       else if r.2.2.1 != 0 then some .startNodePosition
       else if r.2.2.2.1 != (nodes.length : Int) - 1 then some .endNodePosition
       else edgesLoop edges r.2.2.2.2 []) := by
  obtain ⟨b1, b2, i1, i2, sn⟩ := r
  unfold validateWorkflowStructure
  rw [if_neg (by simp [hne]), hr]

/-- The exact acceptance condition of `validateWorkflowStructure`: note the
last node must be end-typed, but additional end-type nodes earlier in the
list are not excluded, and the start-type node must be unique and first. -/
def AcceptedGraph (nodes : List NodeModel) (edges : List EdgeModel) : Prop :=
  nodes ≠ [] ∧
  (∀ n ∈ nodes, n.id ≠ "" ∧ n.type ≠ "") ∧
  (nodes.map NodeModel.id).Nodup ∧
  nodes.head?.map NodeModel.type = some nodeTypeStart ∧
  (∀ n ∈ nodes.tail, n.type ≠ nodeTypeStart) ∧
  nodes.getLast?.map NodeModel.type = some nodeTypeEnd ∧
  (∀ e ∈ edges, e.id ≠ "" ∧ e.source ≠ "" ∧ e.target ≠ "" ∧
     e.source ∈ nodes.map NodeModel.id ∧ e.target ∈ nodes.map NodeModel.id) ∧
  (edges.map EdgeModel.id).Nodup

theorem validate_none_iff_accepted (nodes : List NodeModel) (edges : List EdgeModel) :
    validateWorkflowStructure nodes edges = none ↔ AcceptedGraph nodes edges := by
  by_cases h0 : nodes = []
  · subst h0
    constructor
    · intro h; simp [validateWorkflowStructure] at h
    · rintro ⟨hne, _⟩; exact absurd rfl hne
  · have hlen : (nodes.length == 0) = false := length_beq_zero_false nodes h0
    cases hg : goodNodes nodes [] with
    | false =>
      obtain ⟨e, he, _⟩ := nodesLoop_eq_error nodes 0 false false (-1) (-1) [] hg
      rw [validate_unfold_error nodes edges hlen e he]
      constructor
      · intro h; cases h
      · rintro ⟨_, hid, hnodup, _⟩
        have hgt : goodNodes nodes [] = true :=
          (goodNodes_iff nodes []).2
            ⟨fun n hn => ⟨(hid n hn).1, (hid n hn).2, by simp⟩, hnodup⟩
        cases hgt.symm.trans hg
    | true =>
      rw [validate_unfold_ok nodes edges hlen _ (nodesLoop_eq_ok nodes 0 false false (-1) (-1) [] hg)]
      simp only [Bool.false_or, List.append_nil]
      obtain ⟨hids, hnodup⟩ := (goodNodes_iff nodes []).1 hg
      have hiff : (if !(nodes.any isStartNode) then some ValidationError.missingStartNode
          else if !(nodes.any isEndNode) then some ValidationError.missingEndNode
          else if lastIdxFrom isStartNode nodes 0 (-1) != 0 then some ValidationError.startNodePosition
          else if lastIdxFrom isEndNode nodes 0 (-1) != (nodes.length : Int) - 1 then
            some ValidationError.endNodePosition
          else edgesLoop edges (nodes.reverse.map NodeModel.id) []) = none ↔
          (nodes.any isStartNode = true ∧ nodes.any isEndNode = true ∧
           lastIdxFrom isStartNode nodes 0 (-1) = 0 ∧
           lastIdxFrom isEndNode nodes 0 (-1) = (nodes.length : Int) - 1 ∧
           edgesLoop edges (nodes.reverse.map NodeModel.id) [] = none) := by
        by_cases hS : nodes.any isStartNode <;> by_cases hE : nodes.any isEndNode <;>
          by_cases hSI : lastIdxFrom isStartNode nodes 0 (-1) = 0 <;>
          by_cases hEI : lastIdxFrom isEndNode nodes 0 (-1) = (nodes.length : Int) - 1 <;>
          simp [hS, hE, hSI, hEI]
      rw [hiff]
      constructor
      · rintro ⟨hS, hE, hSI, hEI, hedges⟩
        obtain ⟨hhead, htail⟩ := (startChecks_iff nodes h0).1 ⟨hS, hSI⟩
        have hlast := (endChecks_iff nodes h0).1 ⟨hE, hEI⟩
        obtain ⟨hmemb, henodup⟩ := (edgesLoop_eq_none_iff edges _ []).1 hedges
        refine ⟨h0, fun n hn => ⟨(hids n hn).1, (hids n hn).2.1⟩, hnodup, hhead, htail,
          hlast, ?_, henodup⟩
        intro e he
        obtain ⟨ha, _, hc, hd, hsrc, htgt⟩ := hmemb e he
        refine ⟨ha, hc, hd, ?_, ?_⟩
        · simpa [List.mem_reverse] using hsrc
        · simpa [List.mem_reverse] using htgt
      · rintro ⟨_, _, _, hhead, htail, hlast, hedges2, henodup⟩
        obtain ⟨hS, hSI⟩ := (startChecks_iff nodes h0).2 ⟨hhead, htail⟩
        obtain ⟨hE, hEI⟩ := (endChecks_iff nodes h0).2 hlast
        refine ⟨hS, hE, hSI, hEI, (edgesLoop_eq_none_iff edges _ []).2 ⟨?_, henodup⟩⟩
        intro e he
        obtain ⟨ha, hc, hd, hsrc, htgt⟩ := hedges2 e he
        refine ⟨ha, by simp, hc, hd, ?_, ?_⟩
        · simpa [List.mem_reverse] using hsrc
        · simpa [List.mem_reverse] using htgt

/-! ### Claims C2 and C8 -/

/-- A three-node list whose last two nodes are both end-typed. -/
def twoEndNodes : List NodeModel :=
  [⟨"start-1", "start", ⟨"Start", "", []⟩⟩,
   ⟨"end-1", "end", ⟨"End", "", []⟩⟩,
   ⟨"end-2", "end", ⟨"End", "", []⟩⟩]

/-- C2, counterexample: a node list containing two end-type nodes is
accepted by `validateWorkflowStructure` (it returns no error), because the
validator only records the index of the last end-type node and compares it
with the last position; it never counts end-type nodes. -/
theorem c2_counterexample :
    (twoEndNodes.countP (fun n => n.type == nodeTypeEnd)) = 2 ∧
      validateWorkflowStructure twoEndNodes [] = none := by
  constructor <;> decide

/-- C2 (amended): `validateWorkflowStructure` accepts exactly the node/edge
lists with: at least one node; all node ids non-empty and unique and all
node types non-empty; the first node start-typed and no other start-type
node; the last node end-typed (additional end-type nodes earlier are NOT
rejected); all edge ids non-empty and unique; all edge endpoints non-empty
and referencing existing node ids.  In particular every list satisfying the
full §3 invariants is accepted, and every violation of a performed check is
rejected — but end-node multiplicity is not a performed check. -/
theorem c2_validator_characterization (nodes : List NodeModel) (edges : List EdgeModel) :
    validateWorkflowStructure nodes edges = none ↔ AcceptedGraph nodes edges :=
  validate_none_iff_accepted nodes edges

/-- A single form node with an empty id: it has no start node and an empty
node id, the configuration claim C8 talks about. -/
def emptyIdNode : NodeModel := ⟨"", "form", ⟨"Form", "", []⟩⟩

/-- C8, counterexample: for a graph violating both the start-node invariant
and the empty-node-id invariant, the validator reports the empty-node-id
error, not the missing-start-node error — the per-node id/type checks run
before the start/end checks. -/
theorem c8_counterexample :
    validateWorkflowStructure [emptyIdNode] [] = some .emptyNodeID ∧
      ValidationError.emptyNodeID ≠ ValidationError.missingStartNode := by
  constructor <;> decide

/-- C8 (amended): the checks run in the fixed order node-count, then the
per-node id/type checks (empty id, duplicate id, missing type), then the
start/end-node checks, then the edge checks; consequently for every graph
with no start-type node and some empty node id the reported error is one of
the per-node errors — never the missing-start-node error. -/
theorem c8_node_checks_precede_start_check (nodes : List NodeModel) (edges : List EdgeModel)
    (hnostart : ∀ n ∈ nodes, n.type ≠ nodeTypeStart)
    (hempty : ∃ n ∈ nodes, n.id = "") :
    ∃ e, validateWorkflowStructure nodes edges = some e ∧
      e ≠ .missingStartNode ∧
      (e = .emptyNodeID ∨ (∃ s, e = .duplicateNodeID s) ∨ (∃ s, e = .invalidNodeType s)) := by
  obtain ⟨n0, hn0, hid0⟩ := hempty
  have h0 : nodes ≠ [] := fun h => by subst h; cases hn0
  have hlen : (nodes.length == 0) = false := length_beq_zero_false nodes h0
  have hg : goodNodes nodes [] = false := by
    cases hgt : goodNodes nodes [] with
    | false => rfl
    | true =>
      obtain ⟨hids, _⟩ := (goodNodes_iff nodes []).1 hgt
      exact absurd hid0 (hids n0 hn0).1
  obtain ⟨e, he, hshape⟩ := nodesLoop_eq_error nodes 0 false false (-1) (-1) [] hg
  refine ⟨e, validate_unfold_error nodes edges hlen e he, ?_, hshape⟩
  rcases hshape with rfl | ⟨s, rfl⟩ | ⟨s, rfl⟩ <;> simp

/-- C8, witness: the amended theorem applied to the concrete one-node graph
with an empty id and no start node. -/
theorem c8_witness :
    ∃ e, validateWorkflowStructure [emptyIdNode] [] = some e ∧
      e ≠ .missingStartNode ∧
      (e = .emptyNodeID ∨ (∃ s, e = .duplicateNodeID s) ∨ (∃ s, e = .invalidNodeType s)) :=
  c8_node_checks_precede_start_check [emptyIdNode] [] (by decide) (by decide)

/-! ### Node runtime embedding -/

/-- Does `l` start with `pat`? (character-level helper for `goReplaceAll`). -/
def startsWithChars : List Char → List Char → Bool
  | [], _ => true
  | _ :: _, [] => false
  | p :: ps, c :: cs => p == c && startsWithChars ps cs

/-- One fuel-indexed pass of Go `strings.Replace(s, old, new, -1)`:
left-to-right, non-overlapping replacement of every occurrence. -/
def replaceChars (pat rep : List Char) : Nat → List Char → List Char
  | _, [] => []
  | 0, l => l
  | fuel + 1, c :: rest =>
    if startsWithChars pat (c :: rest) then
      rep ++ replaceChars pat rep fuel ((c :: rest).drop pat.length)
    else
      c :: replaceChars pat rep fuel rest

/-- Go `strings.Replace(s, pat, rep, -1)` / `strings.ReplaceAll` for the
non-empty patterns used by the engine. -/
def goReplaceAll (s pat rep : String) : String :=
  ⟨replaceChars pat.data rep.data s.data.length s.data⟩

/-- Go `fmt.Sprintf("%.1f", q)` for a non-negative rational: round to one
decimal, ties to even (the IEEE-754/Go rounding of `strconv`).  Written
with integer arithmetic on the numerator/denominator (`10q = n10/d`,
`f = ⌊10q⌋`, remainder comparison against 1/2) so it evaluates by
reduction. -/
def fmt1aux (q : Rat) : String :=
  let n10 : Int := q.num * 10
  let d : Int := (q.den : Int)
  let f : Int := n10.fdiv d
  let rem : Int := n10 - f * d
  let n : Int :=
    if 2 * rem > d then f + 1
    else if 2 * rem < d then f
    else if f % 2 = 0 then f else f + 1
  toString (n / 10) ++ "." ++ toString (n % 10)

/-- Go `fmt.Sprintf("%.1f", q)`. -/
def fmt1 (q : Rat) : String :=
  if q < 0 then "-" ++ fmt1aux (-q) else fmt1aux q

/-- `weather.WeatherEmoji.Emoji`. -/
def weatherEmoji (temp : Rat) : String :=
  if temp ≥ 35 then "🥵"
  else if temp ≥ 25 then "😎"
  else if temp ≥ 15 then "🙂"
  else if temp ≥ 5 then "🧥"
  else "🥶"

/-- The value rendering of `mailer.processTemplate`'s type switch:
`%.1f` for float64, `%d` for int, the string itself, and `%v` otherwise
(only the bool case of `%v` can be reached by the engine's data). -/
def goFmtValue : Value → String
  | .vNum q => fmt1 q
  | .vInt n => toString n
  | .vStr s => s
  | .vBool b => if b then "true" else "false"
  | .vMap _ => "<composite>"
  | .vList _ => "<composite>"

/-- `mailer.processTemplate`: replace each `{{key}}` placeholder by the
rendered value.  Go iterates the variables map in unspecified order; the
model iterates the association list in insertion order (the engine's uses
substitute disjoint placeholders, so the order cannot be observed). -/
def processTemplate (template : String) (vars : List (String × Value)) : String :=
  vars.foldl
    (fun acc kv => goReplaceAll acc ("\x7b\x7b" ++ kv.1 ++ "\x7d\x7d") (goFmtValue kv.2))
    template

/-- `mailer.EmailTemplate`. -/
structure EmailTemplate where
  subject : String
  body : String

/-- `mailer.PrepareAndStubSendEmail`: renders subject and body and returns
the payload map.  (The Go function logs instead of sending and always
returns a nil error, so the caller's mailer-failure branch is
unreachable.)  The wall-clock timestamp is abstracted to `""`. -/
def prepareAndStubSendEmail (toAddr : String) (vars : List (String × Value))
    (template : EmailTemplate) : List (String × Value) :=
  let subject := processTemplate template.subject vars
  let body := processTemplate template.body vars
  [("to", .vStr toAddr), ("from", .vStr "weather-alerts@checkbox.com"),
   ("subject", .vStr subject), ("body", .vStr body),
   ("variables", .vMap vars), ("timestamp", .vStr "")]

/-- `node.BaseNode`. -/
structure BaseNode where
  id : String
  label : String
  description : String

/-- `weather.WeatherOption`. -/
structure WeatherOption where
  city : String
  lat : Rat
  lon : Rat

/-- `integration.Config`. -/
structure IntegrationConfig where
  apiEndpoint : String
  options : List WeatherOption

/-- `condition.Config`. -/
structure ConditionConfig where
  conditionExpression : String
  trueRoute : String
  falseRoute : String

/-- A node runtime instance: the tagged-variant form of the six `node.Node`
implementations registered in `main.go`. -/
inductive NodeInst where
  | startInst (base : BaseNode)
  | formInst (base : BaseNode)
  | integrationInst (base : BaseNode) (config : IntegrationConfig)
  | conditionInst (base : BaseNode) (config : ConditionConfig)
  | emailInst (base : BaseNode) (inputVariables : List String) (template : EmailTemplate)
  | endInst (base : BaseNode)

/-- `Node.Type()` of each variant. -/
def NodeInst.typeTag : NodeInst → String
  | .startInst _ => nodeTypeStart
  | .formInst _ => nodeTypeForm
  | .integrationInst _ _ => nodeTypeIntegration
  | .conditionInst _ _ => nodeTypeCondition
  | .emailInst _ _ _ => nodeTypeEmail
  | .endInst _ => nodeTypeEnd

/-- `Node.GetBaseInfo()` of each variant. -/
def NodeInst.baseInfo : NodeInst → BaseNode
  | .startInst b => b
  | .formInst b => b
  | .integrationInst b _ => b
  | .conditionInst b _ => b
  | .emailInst b _ _ => b
  | .endInst b => b

/-- `node.NodeOutputs`.  `startedAt`/`endedAt` are wall-clock strings in Go
and are abstracted to `""`. -/
structure NodeOutputs where
  data : List (String × Value)
  status : String
  startedAt : String
  endedAt : String
  nextNodeID : String

/-- `node.NodeInputs`. -/
structure NodeInputs where
  workflowInput : WorkflowInput
  nodeData : List (String × Value)
  priorOutputs : List (String × NodeOutputs)

/-- The outcome of `weather.Client.GetWeather` — the HTTP boundary.  The
oracle receives the endpoint, coordinates and city and produces either the
parsed temperature or the error the client would return. -/
def Oracle : Type := String → Rat → Rat → String → Except String Rat

/-- `start.Node.Execute`. -/
def execStart (b : BaseNode) : NodeOutputs × Option String × NodeInst :=
  (⟨[], statusCompleted, "", "", ""⟩, none, .startInst b)

/-- `form.Node.Execute`. -/
def execForm (b : BaseNode) (inp : NodeInputs) : NodeOutputs × Option String × NodeInst :=
  let i := inp.workflowInput
  let formData : List (String × Value) :=
    [("name", .vStr i.name), ("email", .vStr i.email), ("city", .vStr i.city),
     ("threshold", .vNum i.threshold), ("operator", .vStr i.operator)]
  let formType := if b.label != "" then b.label else "user_input"
  (⟨[("message", .vStr "Form data processed successfully"),
     ("formData", .vMap formData),
     ("details", .vMap [("formType", .vStr formType), ("fieldCount", .vInt 5)]),
     ("name", .vStr i.name), ("email", .vStr i.email), ("city", .vStr i.city)],
    statusCompleted, "", "", ""⟩, none, .formInst b)

/-- `end.Node.Execute`. -/
def execEnd (b : BaseNode) : NodeOutputs × Option String × NodeInst :=
  (⟨[("summary", .vMap [("message", .vStr "Workflow execution finished")])],
    statusCompleted, "", "", ""⟩, none, .endInst b)

/-- `integration.Node.Execute`.  The `strings.Contains` guard before the
description rewrite is semantically redundant (replacing an absent pattern
is the identity) and is folded into `goReplaceAll`. -/
def execIntegration (oracle : Oracle) (b : BaseNode) (cfg : IntegrationConfig)
    (inp : NodeInputs) : NodeOutputs × Option String × NodeInst :=
  match mapGet inp.priorOutputs "form" with
  | none =>
    (⟨[("error", .vStr "Failed to get form data")], statusFailed, "", "", ""⟩,
      some "missing form data", .integrationInst b cfg)
  | some formOutput =>
    match mapGet formOutput.data "city" with
    | some (.vStr city) =>
      let b' : BaseNode :=
        { b with description := goReplaceAll b.description "\x7b\x7bcity\x7d\x7d" city }
      match cfg.options.find? (fun opt => opt.city == city) with
      | none =>
        (⟨[("error", .vStr ("City not found: " ++ city))], statusFailed, "", "", ""⟩,
          some ("city not found: " ++ city), .integrationInst b' cfg)
      | some opt =>
        match oracle cfg.apiEndpoint opt.lat opt.lon city with
        | .error msg =>
          (⟨[("error", .vStr ("Weather API error: " ++ msg)),
             ("message", .vStr "Weather API request failed")], statusFailed, "", "", ""⟩,
            some ("weather API error: " ++ msg), .integrationInst b' cfg)
        | .ok temperature =>
          (⟨[("message", .vStr ("Retrieved temperature for " ++ city ++ ": " ++
               fmt1 temperature ++ "°C")),
             ("apiResponse", .vMap
               [("endpoint", .vStr cfg.apiEndpoint), ("method", .vStr "GET"),
                ("data", .vMap [("temperature", .vNum temperature),
                                ("location", .vStr city)])]),
             ("temperature", .vNum temperature), ("location", .vStr city)],
            statusCompleted, "", "", ""⟩, none, .integrationInst b' cfg)
    | _ =>
      (⟨[("error", .vStr "Failed to get city from form output")], statusFailed, "", "", ""⟩,
        some "missing city", .integrationInst b cfg)

/-- `condition.Node.Execute`.  A missing `"weather-api"` prior output yields
the zero `NodeOutputs` value in Go (nil data map), so the temperature
lookup fails the same way. -/
def execCondition (b : BaseNode) (cfg : ConditionConfig) (inp : NodeInputs) :
    NodeOutputs × Option String × NodeInst :=
  let tempData := ((mapGet inp.priorOutputs "weather-api").map NodeOutputs.data).getD []
  match mapGet tempData "temperature" with
  | some (.vNum temperature) =>
    let threshold := inp.workflowInput.threshold
    let operator := inp.workflowInput.operator
    let conditionMet : Bool :=
      if operator == operatorGreaterThan then decide (temperature > threshold)
      else if operator == operatorLessThan then decide (temperature < threshold)
      else if operator == operatorEquals then decide (temperature = threshold)
      else if operator == operatorGreaterThanOrEqual then decide (temperature ≥ threshold)
      else if operator == operatorLessThanOrEqual then decide (temperature ≤ threshold)
      else false
    let nextNodeID := if conditionMet then cfg.trueRoute else cfg.falseRoute
    let emoji := weatherEmoji temperature
    let operatorSymbol :=
      if operator == operatorLessThan then "<"
      else if operator == operatorEquals then "="
      else if operator == operatorGreaterThanOrEqual then "≥"
      else if operator == operatorLessThanOrEqual then "≤"
      else ">"
    let message := "Temperature " ++ fmt1 temperature ++ "°C " ++ operatorSymbol ++ " " ++
      fmt1 threshold ++ "°C " ++ emoji ++ " - condition " ++
      (if conditionMet then "met" else "not met")
    let expression := "temperature " ++ operatorSymbol ++ " threshold"
    (⟨[("message", .vStr message),
       ("conditionResult", .vMap
         [("expression", .vStr expression), ("result", .vBool conditionMet),
          ("temperature", .vNum temperature), ("operator", .vStr operator),
          ("threshold", .vNum threshold)]),
       ("details", .vMap [("conditionType", .vStr "temperature"),
                          ("evaluatedAt", .vStr "")])],
      statusCompleted, "", "", nextNodeID⟩, none, .conditionInst b cfg)
  | _ =>
    (⟨[("error", .vStr "Failed to get temperature")], statusFailed, "", "", ""⟩,
      some "missing temperature", .conditionInst b cfg)

/-- The email node's scan of all prior outputs for a named variable.  Go
ranges over the map in unspecified order; the model uses insertion order
(first match wins in that order). -/
def findVar : List (String × NodeOutputs) → String → Option Value
  | [], _ => none
  | (_, o) :: rest, v =>
    match mapGet o.data v with
    | some val => some val
    | none => findVar rest v

/-- Collect every input variable from the prior outputs, failing on the
first missing variable name, as `email.Node.Execute` does. -/
def collectVars (prior : List (String × NodeOutputs)) :
    List String → Except String (List (String × Value))
  | [] => .ok []
  | v :: rest =>
    match findVar prior v with
    | some val => (collectVars prior rest).map (fun tl => (v, val) :: tl)
    | none => .error v

/-- `email.Node.Execute`. -/
def execEmail (b : BaseNode) (inputVariables : List String) (template : EmailTemplate)
    (inp : NodeInputs) : NodeOutputs × Option String × NodeInst :=
  let inst := NodeInst.emailInst b inputVariables template
  match mapGet inp.priorOutputs "condition" with
  | none =>
    (⟨[("message", .vStr "Failed to process email"),
       ("error", .vStr "Failed to get condition result")], statusFailed, "", "", ""⟩,
      some "failed to get condition result", inst)
  | some conditionNodeOutput =>
    match mapGet conditionNodeOutput.data "conditionResult" with
    | some (.vMap conditionResult) =>
      match mapGet conditionResult "result" with
      | some (.vBool conditionMet) =>
        if conditionMet then
          match mapGet inp.priorOutputs "form" with
          | none =>
            (⟨[("message", .vStr "Failed to process email"),
               ("error", .vStr "Failed to get form data")], statusFailed, "", "", ""⟩,
              some "missing form data", inst)
          | some formOutput =>
            match mapGet formOutput.data "email" with
            | some (.vStr email) =>
              match collectVars inp.priorOutputs inputVariables with
              | .error varName =>
                (⟨[("message", .vStr "Failed to process email"),
                   ("error", .vStr ("Missing required variable: " ++ varName))],
                  statusFailed, "", "", ""⟩,
                  some ("missing required variable: " ++ varName), inst)
              | .ok templateVars =>
                let emailPayload := prepareAndStubSendEmail email templateVars template
                let subject :=
                  match mapGet emailPayload "subject" with
                  | some (.vStr s) => s
                  | _ => ""
                let body :=
                  match mapGet emailPayload "body" with
                  | some (.vStr s) => s
                  | _ => ""
                (⟨[("message", .vStr "Email sent successfully"),
                   ("details", .vMap [("outputVariables", .vList [.vStr "emailSent"])]),
                   ("emailContent", .vMap
                     [("to", .vStr email), ("subject", .vStr subject),
                      ("body", .vStr body), ("timestamp", .vStr "")])],
                  statusCompleted, "", "", ""⟩, none, inst)
            | _ =>
              (⟨[("message", .vStr "Failed to process email"),
                 ("error", .vStr "Failed to get email from form output")],
                statusFailed, "", "", ""⟩,
                some "missing email", inst)
        else
          (⟨[("message", .vStr "Email not sent - condition not met"),
             ("details", .vMap [("reason", .vStr "Condition not met")])],
            statusCompleted, "", "", ""⟩, none, inst)
      | _ =>
        (⟨[("message", .vStr "Failed to process email"),
           ("error", .vStr "Failed to get condition result")], statusFailed, "", "", ""⟩,
          some "invalid condition result format", inst)
    | _ =>
      (⟨[("message", .vStr "Failed to process email"),
         ("error", .vStr "Failed to get condition result")], statusFailed, "", "", ""⟩,
        some "invalid condition result format", inst)

/-- `Node.Execute` dispatch over the six variants. -/
def execNode (oracle : Oracle) : NodeInst → NodeInputs → NodeOutputs × Option String × NodeInst
  | .startInst b, _ => execStart b
  | .formInst b, inp => execForm b inp
  | .integrationInst b cfg, inp => execIntegration oracle b cfg inp
  | .conditionInst b cfg, inp => execCondition b cfg inp
  | .emailInst b vars tpl, inp => execEmail b vars tpl inp
  | .endInst b, _ => execEnd b

/-! ### Registry and engine -/

/-- `start.NewNode` / `form.NewNode` / `end.NewNode` share this shape. -/
def baseOf (m : NodeModel) : BaseNode :=
  ⟨m.id, m.data.label, m.data.description⟩

/-- `integration.NewNode`: requires the `apiEndpoint` metadata string;
parses the options list, skipping non-map entries, defaulting missing or
mistyped fields to the zero value (Go's blank-ok assertions). -/
def integrationNewNode (m : NodeModel) : Except String NodeInst :=
  match mapGet m.data.metadata "apiEndpoint" with
  | some (.vStr apiEndpoint) =>
    let options : List WeatherOption :=
      match mapGet m.data.metadata "options" with
      | some (.vList l) =>
        l.filterMap (fun opt =>
          match opt with
          | .vMap o =>
            some ⟨(match mapGet o "city" with | some (.vStr s) => s | _ => ""),
                  (match mapGet o "lat" with | some (.vNum q) => q | _ => 0),
                  (match mapGet o "lon" with | some (.vNum q) => q | _ => 0)⟩
          | _ => none)
      | _ => []
    .ok (.integrationInst (baseOf m) ⟨apiEndpoint, options⟩)
  | _ => .error "missing API endpoint"

/-- Whether every `hasHandles.source` metadata entry is a string: the Go
loop over them performs an unchecked `handle.(string)` assertion that
panics on a non-string entry. -/
def conditionHandlesOK (m : NodeModel) : Bool :=
  match mapGet m.data.metadata "hasHandles" with
  | some (.vMap h) =>
    match mapGet h "source" with
    | some (.vList src) => src.all (fun x => match x with | .vStr _ => true | _ => false)
    | _ => true
  | _ => true

/-- `condition.NewNode`: reads `conditionExpression`; both routes start
empty and are assigned later by the engine.  A non-string handle entry
panics in Go; the panic aborts the call and is modelled as a creation
error. -/
def conditionNewNode (m : NodeModel) : Except String NodeInst :=
  let expr :=
    match mapGet m.data.metadata "conditionExpression" with
    | some (.vStr s) => s
    | _ => ""
  if conditionHandlesOK m then .ok (.conditionInst (baseOf m) ⟨expr, "", ""⟩)
  else .error "panic: interface conversion"

/-- `email.NewNode`: the template is parsed only when the `inputVariables`
key is present (the Go code nests the template extraction inside that
branch); non-string variable entries are skipped. -/
def emailNewNode (m : NodeModel) : Except String NodeInst :=
  match mapGet m.data.metadata "inputVariables" with
  | some v =>
    let vars : List String :=
      match v with
      | .vList l => l.filterMap (fun x => match x with | .vStr s => some s | _ => none)
      | _ => []
    let template : EmailTemplate :=
      match mapGet m.data.metadata "emailTemplate" with
      | some (.vMap t) =>
        ⟨(match mapGet t "subject" with | some (.vStr s) => s | _ => ""),
         (match mapGet t "body" with | some (.vStr s) => s | _ => "")⟩
      | _ => ⟨"", ""⟩
    .ok (.emailInst (baseOf m) vars template)
  | none => .ok (.emailInst (baseOf m) [] ⟨"", ""⟩)

/-- `Registry.Create` with the six factories registered in `main.go`;
an unregistered type yields the registry error. -/
def registryCreate (m : NodeModel) : Except String NodeInst :=
  if m.type == nodeTypeStart then .ok (.startInst (baseOf m))
  else if m.type == nodeTypeForm then .ok (.formInst (baseOf m))
  else if m.type == nodeTypeIntegration then integrationNewNode m
  else if m.type == nodeTypeCondition then conditionNewNode m
  else if m.type == nodeTypeEmail then emailNewNode m
  else if m.type == nodeTypeEnd then .ok (.endInst (baseOf m))
  else .error ("no factory registered for node type " ++ m.type)

/-- The routing table `edges[source][routeKey]` built by
`initializeWorkflow`: the last edge with a given `(source, routeKey)` pair
wins, as in the Go map-of-maps built by overwriting inserts. -/
def routeLookup : List EdgeModel → String → String → Option String
  | [], _, _ => none
  | e :: rest, src, key =>
    match routeLookup rest src key with
    | some t => some t
    | none => if e.source == src && e.sourceHandle == key then some e.target else none

/-- The condition-route configuration performed while building the edge
map: `SetTrueRoute`/`SetFalseRoute` are called once per matching edge, so
the final routes are the routing-table entries for `"true"`/`"false"`
(keeping the constructor value when no such edge exists). -/
def configureInst (edges : List EdgeModel) (id : String) : NodeInst → NodeInst
  | .conditionInst b cfg =>
    .conditionInst b
      { cfg with
        trueRoute := (routeLookup edges id "true").getD cfg.trueRoute,
        falseRoute := (routeLookup edges id "false").getD cfg.falseRoute }
  | inst => inst

/-- The node-creation loop of `Engine.initializeWorkflow`. -/
def buildInstances : List NodeModel → Except String (List (String × NodeInst))
  | [] => .ok []
  | m :: rest =>
    match registryCreate m with
    | .error msg => .error ("failed to create node " ++ m.id ++ ": " ++ msg)
    | .ok inst =>
      match buildInstances rest with
      | .error e => .error e
      | .ok tl => .ok ((m.id, inst) :: tl)

/-- The start-node id `initializeWorkflow` ends up with: the id of the last
start-typed instance created, or `""` when there is none. -/
def startIDOf (insts : List (String × NodeInst)) : String :=
  ((insts.filter (fun p => p.2.typeTag == nodeTypeStart)).getLast?.map Prod.fst).getD ""

/-- `Engine.initializeWorkflow`: create all instances, locate the start
node (the last start-typed instance wins, and an empty id counts as
missing), and configure condition routes from the edges. -/
def initializeWorkflow (wf : Workflow) :
    Except String (List (String × NodeInst) × String) :=
  match buildInstances wf.nodes with
  | .error e => .error e
  | .ok insts =>
    if startIDOf insts == "" then .error "no start node found in workflow"
    else
      .ok (insts.map (fun p => (p.1, configureInst wf.edges p.1 p.2)), startIDOf insts)

/-- `models.ExecutionStep` (the fields the engine writes; the wall-clock
duration is abstracted to 0). -/
structure ExecutionStep where
  nodeID : String
  stepNumber : Int
  nodeType : String
  status : String
  label : String
  description : String
  duration : Int
  output : List (String × Value)
  timestamp : String
  error : String
  startedAt : String
  endedAt : String

/-- The `models.WorkflowExecution` fields the verified claims mention. -/
structure ExecutionRec where
  workflowID : String
  status : String
  steps : List ExecutionStep

/-- `Engine.createExecutionStep`: snapshot the node's (possibly updated)
base info, collapse any non-failed status to completed, and extract the
error message from the output data. -/
def createExecutionStep (inst : NodeInst) (nodeID : String) (outputs : NodeOutputs) :
    ExecutionStep :=
  let status := if outputs.status == statusFailed then statusFailed else statusCompleted
  let errorMsg :=
    match mapGet outputs.data "error" with
    | some (.vStr s) => s
    | _ => ""
  ⟨nodeID, 0, inst.typeTag, status, inst.baseInfo.label, inst.baseInfo.description,
    0, outputs.data, outputs.startedAt, errorMsg, outputs.startedAt, outputs.endedAt⟩

/-- `Engine.findNextNode`: explicit `NextNodeID` wins; a condition node
routes by the `conditionMet` output flag; otherwise the unconditional
(empty-key) edge; a miss is a hard error. -/
def findNextNode (inst : NodeInst) (currentNodeID : String) (outputs : NodeOutputs)
    (edges : List EdgeModel) : Except String String :=
  if outputs.nextNodeID != "" then .ok outputs.nextNodeID
  else
    let viaCondition : Option String :=
      if inst.typeTag == nodeTypeCondition then
        let routeKey :=
          match mapGet outputs.data "conditionMet" with
          | some (.vBool true) => "true"
          | _ => "false"
        routeLookup edges currentNodeID routeKey
      else none
    match viaCondition with
    | some nxt => .ok nxt
    | none =>
      match routeLookup edges currentNodeID "" with
      | some nxt => .ok nxt
      | none => .error ("node " ++ currentNodeID ++ " has no outgoing edges")

/-- The three ways `Engine.Execute` can leave its traversal loop, plus an
out-of-fuel marker: `record` is the `(execution, nil)` return,
`callError` the `(nil, err)` return; `outOfFuel` means the loop is still
running after the given number of executed steps (the Go loop has no
step bound). -/
inductive ExecOutcome where
  | record (ex : ExecutionRec)
  | callError (msg : String)
  | outOfFuel

/-- The traversal loop of `Engine.Execute`, with an explicit step budget.
Each iteration mirrors the source: look up the node (missing node is a
hard error), execute it, append the step record and the prior output, then
fail the execution, finish at an end node, or follow `findNextNode`. -/
def runLoop (oracle : Oracle) (input : WorkflowInput) (edges : List EdgeModel)
    (wfID : String) :
    Nat → List (String × NodeInst) → String → Int → List ExecutionStep →
      List (String × NodeOutputs) → ExecOutcome
  | 0, _, _, _, _, _ => .outOfFuel
  | fuel + 1, insts, currentNodeID, stepNumber, steps, priorOutputs =>
    match mapGet insts currentNodeID with
    | none => .callError ("node " ++ currentNodeID ++ " not found in workflow")
    | some inst =>
      let r := execNode oracle inst ⟨input, [], priorOutputs⟩
      let step := { createExecutionStep r.2.2 currentNodeID r.1 with stepNumber := stepNumber }
      let steps' := steps ++ [step]
      let prior' := mapSet priorOutputs currentNodeID r.1
      if r.2.1.isSome || r.1.status == statusFailed then
        .record ⟨wfID, statusFailed, steps'⟩
      else if r.2.2.typeTag == nodeTypeEnd then
        .record ⟨wfID, statusCompleted, steps'⟩
      else
        match findNextNode r.2.2 currentNodeID r.1 edges with
        | .error msg => .callError msg
        | .ok nextNodeID =>
          runLoop oracle input edges wfID fuel (mapSet insts currentNodeID r.2.2)
            nextNodeID (stepNumber + 1) steps' prior'

/-- `Engine.Execute` up to `fuel` executed steps. -/
def engineExecute (oracle : Oracle) (fuel : Nat) (wf : Workflow)
    (input : WorkflowInput) : ExecOutcome :=
  match initializeWorkflow wf with
  | .error e => .callError e
  | .ok (insts, startNodeID) =>
    runLoop oracle input wf.edges wf.id fuel insts startNodeID 1 [] []

/-! ### Claims about the node variants -/

/-- The `conditionResult.result` entry of an output data bag. -/
def conditionResultOf (d : List (String × Value)) : Option Value :=
  match mapGet d "conditionResult" with
  | some (.vMap m) => mapGet m "result"
  | _ => none

/-- The `emailContent.body` entry of an output data bag. -/
def emailBodyOf (d : List (String × Value)) : Option Value :=
  match mapGet d "emailContent" with
  | some (.vMap m) => mapGet m "body"
  | _ => none

/-- The temperature the condition node reads: the `"temperature"` entry of
the `"weather-api"` prior output. -/
def temperatureOf (prior : List (String × NodeOutputs)) : Option Value :=
  mapGet (((mapGet prior "weather-api").map NodeOutputs.data).getD []) "temperature"

/-- C4: with threshold 20 and operator `greater_than`, a prior weather-api
temperature of 25.5 completes the condition node with
`conditionResult.result = true` and `NextNodeID` the configured true-route,
and a temperature of 15.5 completes it with `result = false` and
`NextNodeID` the configured false-route. -/
theorem c4_condition_branching (b : BaseNode) (cfg : ConditionConfig)
    (wi : WorkflowInput) (nd : List (String × Value))
    (priorT priorF : List (String × NodeOutputs))
    (hth : wi.threshold = 20) (hop : wi.operator = operatorGreaterThan)
    (hT : temperatureOf priorT = some (.vNum 25.5))
    (hF : temperatureOf priorF = some (.vNum 15.5)) :
    ((execCondition b cfg ⟨wi, nd, priorT⟩).1.status = statusCompleted ∧
     (execCondition b cfg ⟨wi, nd, priorT⟩).2.1 = none ∧
     conditionResultOf (execCondition b cfg ⟨wi, nd, priorT⟩).1.data = some (.vBool true) ∧
     (execCondition b cfg ⟨wi, nd, priorT⟩).1.nextNodeID = cfg.trueRoute) ∧
    ((execCondition b cfg ⟨wi, nd, priorF⟩).1.status = statusCompleted ∧
     (execCondition b cfg ⟨wi, nd, priorF⟩).2.1 = none ∧
     conditionResultOf (execCondition b cfg ⟨wi, nd, priorF⟩).1.data = some (.vBool false) ∧
     (execCondition b cfg ⟨wi, nd, priorF⟩).1.nextNodeID = cfg.falseRoute) := by
  have hT' : mapGet (((mapGet priorT "weather-api").map NodeOutputs.data).getD [])
      "temperature" = some (.vNum 25.5) := hT
  have hF' : mapGet (((mapGet priorF "weather-api").map NodeOutputs.data).getD [])
      "temperature" = some (.vNum 15.5) := hF
  have hgt : (decide ((25.5 : Rat) > 20)) = true := by
    rw [decide_eq_true_eq]; norm_num
  have hngt : (decide ((15.5 : Rat) > 20)) = false := by
    rw [decide_eq_false_iff_not]; norm_num
  constructor
  · simp [execCondition, hT', hth, hop, operatorGreaterThan, hgt, conditionResultOf, mapGet]
  · simp [execCondition, hF', hth, hop, operatorGreaterThan, hngt, conditionResultOf, mapGet]

def condDemoBase : BaseNode := ⟨"condition", "Cond", ""⟩
def condDemoCfg : ConditionConfig := ⟨"temperature > threshold", "email-node", "end-node"⟩
def condDemoInput : WorkflowInput := ⟨"Jane", "jane@example.com", "Sydney", 20, "greater_than"⟩
def condPriorTrue : List (String × NodeOutputs) :=
  [("weather-api", ⟨[("temperature", .vNum 25.5)], statusCompleted, "", "", ""⟩)]
def condPriorFalse : List (String × NodeOutputs) :=
  [("weather-api", ⟨[("temperature", .vNum 15.5)], statusCompleted, "", "", ""⟩)]

/-- C4, witness: the branching theorem at a concrete condition node with
true-route `email-node` and false-route `end-node`. -/
theorem c4_witness :
    ((execCondition condDemoBase condDemoCfg ⟨condDemoInput, [], condPriorTrue⟩).1.status = statusCompleted ∧
     (execCondition condDemoBase condDemoCfg ⟨condDemoInput, [], condPriorTrue⟩).2.1 = none ∧
     conditionResultOf (execCondition condDemoBase condDemoCfg ⟨condDemoInput, [], condPriorTrue⟩).1.data
       = some (.vBool true) ∧
     (execCondition condDemoBase condDemoCfg ⟨condDemoInput, [], condPriorTrue⟩).1.nextNodeID
       = condDemoCfg.trueRoute) ∧
    ((execCondition condDemoBase condDemoCfg ⟨condDemoInput, [], condPriorFalse⟩).1.status = statusCompleted ∧
     (execCondition condDemoBase condDemoCfg ⟨condDemoInput, [], condPriorFalse⟩).2.1 = none ∧
     conditionResultOf (execCondition condDemoBase condDemoCfg ⟨condDemoInput, [], condPriorFalse⟩).1.data
       = some (.vBool false) ∧
     (execCondition condDemoBase condDemoCfg ⟨condDemoInput, [], condPriorFalse⟩).1.nextNodeID
       = condDemoCfg.falseRoute) :=
  c4_condition_branching condDemoBase condDemoCfg condDemoInput [] condPriorTrue condPriorFalse
    rfl rfl rfl rfl

def emailDemoBase : BaseNode := ⟨"email", "Email", ""⟩
def emailDemoTemplate : EmailTemplate :=
  ⟨"Weather Alert", "Weather alert for \x7b\x7bcity\x7d\x7d! Temperature is \x7b\x7btemperature\x7d\x7d°C!"⟩
def emailDemoInput : WorkflowInput := ⟨"Jane", "jane@example.com", "Sydney", 20, "greater_than"⟩

/-- The float64 value 25.5 as an explicit reduced fraction (51/2), so that
its numerator and denominator evaluate by reduction. -/
def rat25p5 : Rat := ⟨51, 2, by decide, by decide⟩

def emailDemoPrior : List (String × NodeOutputs) :=
  [("condition", ⟨[("conditionResult", .vMap [("result", .vBool true)])],
      statusCompleted, "", "", ""⟩),
   ("form", ⟨[("email", .vStr "jane@example.com"), ("city", .vStr "Sydney")],
      statusCompleted, "", "", ""⟩),
   ("weather-api", ⟨[("temperature", .vNum rat25p5)], statusCompleted, "", "", ""⟩)]

/-- C5: with conditionMet true, input variables `["city","temperature"]`,
the template body `"Weather alert for {{city}}! Temperature is
{{temperature}}°C!"`, and prior outputs supplying city `"Sydney"` (a
string) and temperature 25.5 (a float, carried as the rational 51/2), the
rendered `emailContent.body` is exactly
`"Weather alert for Sydney! Temperature is 25.5°C!"`. -/
theorem c5_email_renders_body :
    emailBodyOf (execEmail emailDemoBase ["city", "temperature"] emailDemoTemplate
        ⟨emailDemoInput, [], emailDemoPrior⟩).1.data =
      some (.vStr "Weather alert for Sydney! Temperature is 25.5°C!") ∧
    (execEmail emailDemoBase ["city", "temperature"] emailDemoTemplate
        ⟨emailDemoInput, [], emailDemoPrior⟩).1.status = statusCompleted ∧
    (execEmail emailDemoBase ["city", "temperature"] emailDemoTemplate
        ⟨emailDemoInput, [], emailDemoPrior⟩).2.1 = none ∧
    rat25p5 = 25.5 := by
  refine ⟨?_, rfl, rfl, ?_⟩
  · rfl
  · rw [rat25p5, Rat.mk'_eq_divInt, Rat.divInt_eq_div]
    norm_num

/-- C6: the form node always completes with a nil error and copies the
input's name, email, city, threshold and operator verbatim into its output
data bag (all five inside the `formData` map, and name/email/city also as
top-level entries). -/
theorem c6_form_copies_input (b : BaseNode) (inp : NodeInputs) :
    (execForm b inp).2.1 = none ∧
    (execForm b inp).1.status = statusCompleted ∧
    mapGet (execForm b inp).1.data "formData" =
      some (.vMap [("name", .vStr inp.workflowInput.name),
                   ("email", .vStr inp.workflowInput.email),
                   ("city", .vStr inp.workflowInput.city),
                   ("threshold", .vNum inp.workflowInput.threshold),
                   ("operator", .vStr inp.workflowInput.operator)]) ∧
    mapGet (execForm b inp).1.data "name" = some (.vStr inp.workflowInput.name) ∧
    mapGet (execForm b inp).1.data "email" = some (.vStr inp.workflowInput.email) ∧
    mapGet (execForm b inp).1.data "city" = some (.vStr inp.workflowInput.city) := by
  refine ⟨rfl, rfl, ?_, ?_, ?_, ?_⟩ <;> simp [execForm, mapGet]

/-- C7: when the city string has no exact match in the configured options
table, the integration node fails with a "City not found" error entry and
error — and the result is the same for every oracle, i.e. the HTTP
boundary is never consulted. -/
theorem c7_integration_unknown_city (b : BaseNode) (cfg : IntegrationConfig)
    (wi : WorkflowInput) (nd : List (String × Value))
    (prior : List (String × NodeOutputs)) (formOut : NodeOutputs) (city : String)
    (hform : mapGet prior "form" = some formOut)
    (hcity : mapGet formOut.data "city" = some (.vStr city))
    (hmiss : ∀ opt ∈ cfg.options, opt.city ≠ city) :
    ∀ oracle : Oracle,
      execIntegration oracle b cfg ⟨wi, nd, prior⟩ =
        (⟨[("error", .vStr ("City not found: " ++ city))], statusFailed, "", "", ""⟩,
         some ("city not found: " ++ city),
         .integrationInst { b with description := goReplaceAll b.description "\x7b\x7bcity\x7d\x7d" city } cfg) := by
  intro oracle
  have hfind : cfg.options.find? (fun opt => opt.city == city) = none :=
    List.find?_eq_none.mpr (fun opt hopt => by simp [hmiss opt hopt])
  simp [execIntegration, hform, hcity, hfind]

def integrationDemoCfg : IntegrationConfig :=
  ⟨"https://api.open-meteo.com/v1/forecast",
   [⟨"Sydney", -33.8688, 151.2093⟩, ⟨"London", 51.5074, -0.1278⟩]⟩
def integrationDemoPrior : List (String × NodeOutputs) :=
  [("form", ⟨[("city", .vStr "Nowhereville")], statusCompleted, "", "", ""⟩)]
def demoOracle : Oracle := fun _ _ _ _ => .ok 25.5

/-- C7, witness: the unknown-city theorem at the concrete city
`"Nowhereville"` with a two-entry options table, applied to a concrete
oracle. -/
theorem c7_witness :
    execIntegration demoOracle ⟨"weather-api", "Weather", ""⟩ integrationDemoCfg
        ⟨condDemoInput, [], integrationDemoPrior⟩ =
      (⟨[("error", .vStr ("City not found: " ++ "Nowhereville"))], statusFailed, "", "", ""⟩,
       some ("city not found: " ++ "Nowhereville"),
       .integrationInst { BaseNode.mk "weather-api" "Weather" "" with
         description := goReplaceAll "" "\x7b\x7bcity\x7d\x7d" "Nowhereville" } integrationDemoCfg) :=
  c7_integration_unknown_city ⟨"weather-api", "Weather", ""⟩ integrationDemoCfg
    condDemoInput [] integrationDemoPrior _ "Nowhereville" rfl rfl (by decide) demoOracle

/-- C9: the integration, condition and email nodes locate upstream data by
the fixed literal prior-output keys `"form"`, `"weather-api"` and
`"condition"`; when the respective key is absent (as in any workflow whose
nodes carry other ids, however the edges are wired), each node returns a
Failed status with the corresponding error. -/
theorem c9_fixed_prior_keys (oracle : Oracle) (b : BaseNode)
    (icfg : IntegrationConfig) (ccfg : ConditionConfig)
    (evars : List String) (etpl : EmailTemplate)
    (wi : WorkflowInput) (nd : List (String × Value))
    (prior : List (String × NodeOutputs)) :
    (mapGet prior "form" = none →
      (execIntegration oracle b icfg ⟨wi, nd, prior⟩).1.status = statusFailed ∧
      mapGet (execIntegration oracle b icfg ⟨wi, nd, prior⟩).1.data "error" =
        some (.vStr "Failed to get form data") ∧
      (execIntegration oracle b icfg ⟨wi, nd, prior⟩).2.1 = some "missing form data") ∧
    (mapGet prior "weather-api" = none →
      (execCondition b ccfg ⟨wi, nd, prior⟩).1.status = statusFailed ∧
      mapGet (execCondition b ccfg ⟨wi, nd, prior⟩).1.data "error" =
        some (.vStr "Failed to get temperature") ∧
      (execCondition b ccfg ⟨wi, nd, prior⟩).2.1 = some "missing temperature") ∧
    (mapGet prior "condition" = none →
      (execEmail b evars etpl ⟨wi, nd, prior⟩).1.status = statusFailed ∧
      mapGet (execEmail b evars etpl ⟨wi, nd, prior⟩).1.data "error" =
        some (.vStr "Failed to get condition result") ∧
      (execEmail b evars etpl ⟨wi, nd, prior⟩).2.1 = some "failed to get condition result") := by
  refine ⟨?_, ?_, ?_⟩
  · intro h
    simp [execIntegration, h, mapGet]
  · intro h
    simp [execCondition, h, mapGet]
  · intro h
    simp [execEmail, h, mapGet]

/-- C9, witness: the fixed-key theorem applied to an empty prior-output
map (no `"form"`, `"weather-api"` or `"condition"` key present). -/
theorem c9_witness :
    ((execIntegration demoOracle condDemoBase integrationDemoCfg ⟨condDemoInput, [], []⟩).1.status = statusFailed ∧
     mapGet (execIntegration demoOracle condDemoBase integrationDemoCfg ⟨condDemoInput, [], []⟩).1.data "error" =
       some (.vStr "Failed to get form data") ∧
     (execIntegration demoOracle condDemoBase integrationDemoCfg ⟨condDemoInput, [], []⟩).2.1 =
       some "missing form data") ∧
    ((execCondition condDemoBase condDemoCfg ⟨condDemoInput, [], []⟩).1.status = statusFailed ∧
     mapGet (execCondition condDemoBase condDemoCfg ⟨condDemoInput, [], []⟩).1.data "error" =
       some (.vStr "Failed to get temperature") ∧
     (execCondition condDemoBase condDemoCfg ⟨condDemoInput, [], []⟩).2.1 = some "missing temperature") ∧
    ((execEmail emailDemoBase ["city"] emailDemoTemplate ⟨condDemoInput, [], []⟩).1.status = statusFailed ∧
     mapGet (execEmail emailDemoBase ["city"] emailDemoTemplate ⟨condDemoInput, [], []⟩).1.data "error" =
       some (.vStr "Failed to get condition result") ∧
     (execEmail emailDemoBase ["city"] emailDemoTemplate ⟨condDemoInput, [], []⟩).2.1 =
       some "failed to get condition result") := by
  have h := c9_fixed_prior_keys demoOracle condDemoBase integrationDemoCfg condDemoCfg
    ["city"] emailDemoTemplate condDemoInput [] []
  have h' := c9_fixed_prior_keys demoOracle emailDemoBase integrationDemoCfg condDemoCfg
    ["city"] emailDemoTemplate condDemoInput [] []
  exact ⟨h.1 rfl, h.2.1 rfl, h'.2.2 rfl⟩

/-- C10: for any operator string outside the five recognized tags, the
condition node with a numeric temperature present completes with a nil
error, `conditionResult.result = false` and `NextNodeID` the configured
false-route — the unrecognized operator is silently treated as
condition-not-met. -/
theorem c10_unknown_operator_falls_false (b : BaseNode) (cfg : ConditionConfig)
    (wi : WorkflowInput) (nd : List (String × Value))
    (prior : List (String × NodeOutputs)) (q : Rat)
    (hop : wi.operator ∉ [operatorGreaterThan, operatorLessThan, operatorEquals,
      operatorGreaterThanOrEqual, operatorLessThanOrEqual])
    (htemp : temperatureOf prior = some (.vNum q)) :
    (execCondition b cfg ⟨wi, nd, prior⟩).2.1 = none ∧
    (execCondition b cfg ⟨wi, nd, prior⟩).1.status = statusCompleted ∧
    conditionResultOf (execCondition b cfg ⟨wi, nd, prior⟩).1.data = some (.vBool false) ∧
    (execCondition b cfg ⟨wi, nd, prior⟩).1.nextNodeID = cfg.falseRoute := by
  have htemp' : mapGet (((mapGet prior "weather-api").map NodeOutputs.data).getD [])
      "temperature" = some (.vNum q) := htemp
  have h1 : (wi.operator == operatorGreaterThan) = false := by
    simp only [beq_eq_false_iff_ne, ne_eq]
    intro h; exact hop (by simp [h])
  have h2 : (wi.operator == operatorLessThan) = false := by
    simp only [beq_eq_false_iff_ne, ne_eq]
    intro h; exact hop (by simp [h])
  have h3 : (wi.operator == operatorEquals) = false := by
    simp only [beq_eq_false_iff_ne, ne_eq]
    intro h; exact hop (by simp [h])
  have h4 : (wi.operator == operatorGreaterThanOrEqual) = false := by
    simp only [beq_eq_false_iff_ne, ne_eq]
    intro h; exact hop (by simp [h])
  have h5 : (wi.operator == operatorLessThanOrEqual) = false := by
    simp only [beq_eq_false_iff_ne, ne_eq]
    intro h; exact hop (by simp [h])
  simp [execCondition, htemp', h1, h2, h3, h4, h5, conditionResultOf, mapGet]

/-- C10, witness: the unknown-operator theorem at the concrete operator
`"not_an_operator"` with temperature 25.5. -/
theorem c10_witness :
    (execCondition condDemoBase condDemoCfg
        ⟨⟨"Jane", "jane@example.com", "Sydney", 20, "not_an_operator"⟩, [], condPriorTrue⟩).2.1 = none ∧
    (execCondition condDemoBase condDemoCfg
        ⟨⟨"Jane", "jane@example.com", "Sydney", 20, "not_an_operator"⟩, [], condPriorTrue⟩).1.status
      = statusCompleted ∧
    conditionResultOf (execCondition condDemoBase condDemoCfg
        ⟨⟨"Jane", "jane@example.com", "Sydney", 20, "not_an_operator"⟩, [], condPriorTrue⟩).1.data
      = some (.vBool false) ∧
    (execCondition condDemoBase condDemoCfg
        ⟨⟨"Jane", "jane@example.com", "Sydney", 20, "not_an_operator"⟩, [], condPriorTrue⟩).1.nextNodeID
      = condDemoCfg.falseRoute :=
  c10_unknown_operator_falls_false condDemoBase condDemoCfg
    ⟨"Jane", "jane@example.com", "Sydney", 20, "not_an_operator"⟩ [] condPriorTrue 25.5
    (by decide) rfl

/-! ### Claim C1: the two failure channels of `Engine.Execute` -/

/-- C1: at any traversal state, (a) a missing node id is a hard call error
with no record; (b) if the current node's `Execute` returns a non-nil
error or a Failed status, the loop stops immediately and returns the
partial execution record — overall status Failed, the failing step
appended (with the error message extracted from the output's `"error"`
entry) — as a normal result, not a call error; (c) if the node completes,
is not the end node and `findNextNode` finds no route, the call aborts
with that hard error and no record. -/
theorem c1_dual_failure_channels (oracle : Oracle) (input : WorkflowInput)
    (edges : List EdgeModel) (wfID : String) (fuel : Nat)
    (insts : List (String × NodeInst)) (cur : String) (stepNumber : Int)
    (steps : List ExecutionStep) (prior : List (String × NodeOutputs)) :
    (mapGet insts cur = none →
      runLoop oracle input edges wfID (fuel + 1) insts cur stepNumber steps prior =
        .callError ("node " ++ cur ++ " not found in workflow")) ∧
    (∀ inst outputs err inst',
      mapGet insts cur = some inst →
      execNode oracle inst ⟨input, [], prior⟩ = (outputs, err, inst') →
      ((err ≠ none ∨ outputs.status = statusFailed) →
        runLoop oracle input edges wfID (fuel + 1) insts cur stepNumber steps prior =
          .record ⟨wfID, statusFailed,
            steps ++ [{ createExecutionStep inst' cur outputs with stepNumber := stepNumber }]⟩ ∧
        ∀ m, mapGet outputs.data "error" = some (.vStr m) →
          (createExecutionStep inst' cur outputs).error = m) ∧
      (err = none → outputs.status ≠ statusFailed → inst'.typeTag ≠ nodeTypeEnd →
        ∀ msg, findNextNode inst' cur outputs edges = .error msg →
          runLoop oracle input edges wfID (fuel + 1) insts cur stepNumber steps prior =
            .callError msg)) := by
  constructor
  · intro h
    simp only [runLoop, h]
  · intro inst outputs err inst' hinst hexec
    constructor
    · intro hfail
      have hcond : (err.isSome || (outputs.status == statusFailed)) = true := by
        rcases hfail with h | h
        · simp [Option.isSome_iff_ne_none, h]
        · simp [h]
      constructor
      · simp only [runLoop, hinst, hexec, hcond, if_true]
      · intro m hm
        simp [createExecutionStep, hm]
    · intro herr hstat hend msg hfind
      have hcond : (err.isSome || (outputs.status == statusFailed)) = false := by
        subst herr
        simp [beq_eq_false_iff_ne, hstat]
      have hendb : (inst'.typeTag == nodeTypeEnd) = false := by
        simp [beq_eq_false_iff_ne, hend]
      simp only [runLoop, hinst, hexec, hcond, hendb, if_false, Bool.false_eq_true, hfind]

/-- C1, witness: the three channels at concrete states — a missing node id,
a failing condition node (missing temperature), and a completed form node
with no outgoing edge. -/
theorem c1_witness :
    (runLoop demoOracle condDemoInput [] "wf" 1 [] "ghost" 1 [] [] =
      .callError ("node " ++ "ghost" ++ " not found in workflow")) ∧
    (runLoop demoOracle condDemoInput [] "wf" 1
        [("condition", .conditionInst condDemoBase condDemoCfg)] "condition" 1 [] [] =
      .record ⟨"wf", statusFailed,
        [] ++ [{ createExecutionStep
            (execCondition condDemoBase condDemoCfg ⟨condDemoInput, [], []⟩).2.2 "condition"
            (execCondition condDemoBase condDemoCfg ⟨condDemoInput, [], []⟩).1 with
          stepNumber := 1 }]⟩) ∧
    (runLoop demoOracle condDemoInput [] "wf" 1 [("form", .formInst condDemoBase)] "form" 1 [] [] =
      .callError ("node " ++ "form" ++ " has no outgoing edges")) := by
  refine ⟨?_, ?_, ?_⟩
  · exact (c1_dual_failure_channels demoOracle condDemoInput [] "wf" 0 [] "ghost" 1 [] []).1 rfl
  · exact (((c1_dual_failure_channels demoOracle condDemoInput [] "wf" 0
      [("condition", .conditionInst condDemoBase condDemoCfg)] "condition" 1 [] []).2
      (.conditionInst condDemoBase condDemoCfg)
      (execCondition condDemoBase condDemoCfg ⟨condDemoInput, [], []⟩).1
      (execCondition condDemoBase condDemoCfg ⟨condDemoInput, [], []⟩).2.1
      (execCondition condDemoBase condDemoCfg ⟨condDemoInput, [], []⟩).2.2
      rfl rfl).1 (Or.inl (by decide))).1
  · exact ((c1_dual_failure_channels demoOracle condDemoInput [] "wf" 0
      [("form", .formInst condDemoBase)] "form" 1 [] []).2
      (.formInst condDemoBase)
      (execForm condDemoBase ⟨condDemoInput, [], []⟩).1
      (execForm condDemoBase ⟨condDemoInput, [], []⟩).2.1
      (execForm condDemoBase ⟨condDemoInput, [], []⟩).2.2
      rfl rfl).2 rfl (by decide) (by decide) _ rfl

/-! ### Claim C3: traversal termination -/

/-- One routing-relevant hop: some edge leads from `a` to `b`. -/
def edgeStepB (edges : List EdgeModel) (a b : String) : Bool :=
  edges.any (fun e => e.source == a && e.target == b)

/-- `b` is reachable from `a` in between 1 and `n` edge hops. -/
def reachesWithin (edges : List EdgeModel) : Nat → String → String → Bool
  | 0, _, _ => false
  | n + 1, a, b =>
    edges.any (fun e => e.source == a && (e.target == b || reachesWithin edges n e.target b))

/-- The edge relation of the workflow is acyclic: no node id reaches itself
within `|nodes|` hops (enough for any simple cycle). -/
def acyclicB (nodes : List NodeModel) (edges : List EdgeModel) : Bool :=
  (nodes.map NodeModel.id).all
    (fun v => !(reachesWithin edges (nodes.map NodeModel.id).length v v))

theorem mapGet_map {α β : Type} (f : String → α → β) (l : List (String × α)) (k : String) :
    mapGet (l.map (fun p => (p.1, f p.1 p.2))) k = (mapGet l k).map (f k) := by
  induction l with
  | nil => rfl
  | cons p rest ih =>
    simp only [List.map_cons, mapGet, ih]
    cases mapGet rest k with
    | some w => rfl
    | none =>
      simp only [Option.map_none']
      by_cases h : p.1 == k
      · have : p.1 = k := by simpa using h
        subst this
        simp [h]
      · simp [h]

theorem mapGet_mapSet {α : Type} (l : List (String × α)) (k k' : String) (v : α) :
    mapGet (mapSet l k v) k' = if k == k' then some v else mapGet l k' := by
  induction l with
  | nil =>
    show (match mapGet ([] : List (String × α)) k' with
          | some w => some w
          | none => if k == k' then some v else none) = _
    by_cases h : k == k' <;> simp [mapGet, h]
  | cons p rest ih =>
    show (match mapGet (mapSet rest k v) k' with
          | some w => some w
          | none => if p.1 == k' then some p.2 else none) = _
    rw [ih]
    by_cases h : k == k'
    · simp [h]
    · simp only [h, if_false, Bool.false_eq_true]
      rfl

theorem integrationNewNode_shape (m : NodeModel) (inst : NodeInst)
    (h : integrationNewNode m = .ok inst) : ∃ b c, inst = .integrationInst b c := by
  unfold integrationNewNode at h
  rcases hv : mapGet m.data.metadata "apiEndpoint" with _ | v
  · rw [hv] at h; cases h
  · rw [hv] at h
    cases v with
    | vStr s => exact ⟨_, _, by cases h; rfl⟩
    | vInt n => cases h
    | vNum q => cases h
    | vBool b => cases h
    | vMap e => cases h
    | vList e => cases h

theorem emailNewNode_shape (m : NodeModel) (inst : NodeInst)
    (h : emailNewNode m = .ok inst) : ∃ b v t, inst = .emailInst b v t := by
  unfold emailNewNode at h
  rcases hv : mapGet m.data.metadata "inputVariables" with _ | v
  · rw [hv] at h
    exact ⟨_, _, _, by cases h; rfl⟩
  · rw [hv] at h
    exact ⟨_, _, _, by cases h; rfl⟩

theorem conditionNewNode_routes (m : NodeModel) (b : BaseNode) (cfg : ConditionConfig)
    (h : conditionNewNode m = .ok (.conditionInst b cfg)) :
    cfg.trueRoute = "" ∧ cfg.falseRoute = "" := by
  unfold conditionNewNode at h
  by_cases hb : conditionHandlesOK m = true
  · rw [if_pos hb] at h
    cases h
    exact ⟨rfl, rfl⟩
  · rw [if_neg hb] at h
    cases h

theorem registryCreate_condition_routes (m : NodeModel) (b : BaseNode) (cfg : ConditionConfig)
    (h : registryCreate m = .ok (.conditionInst b cfg)) :
    cfg.trueRoute = "" ∧ cfg.falseRoute = "" := by
  unfold registryCreate at h
  by_cases h1 : (m.type == nodeTypeStart) = true
  · rw [if_pos h1] at h; cases h
  · rw [if_neg h1] at h
    by_cases h2 : (m.type == nodeTypeForm) = true
    · rw [if_pos h2] at h; cases h
    · rw [if_neg h2] at h
      by_cases h3 : (m.type == nodeTypeIntegration) = true
      · rw [if_pos h3] at h
        obtain ⟨b', c', hbc⟩ := integrationNewNode_shape m _ h
        cases hbc
      · rw [if_neg h3] at h
        by_cases h4 : (m.type == nodeTypeCondition) = true
        · rw [if_pos h4] at h
          exact conditionNewNode_routes m b cfg h
        · rw [if_neg h4] at h
          by_cases h5 : (m.type == nodeTypeEmail) = true
          · rw [if_pos h5] at h
            obtain ⟨b', v', t', hbc⟩ := emailNewNode_shape m _ h
            cases hbc
          · rw [if_neg h5] at h
            by_cases h6 : (m.type == nodeTypeEnd) = true
            · rw [if_pos h6] at h; cases h
            · rw [if_neg h6] at h; cases h

theorem buildInstances_keys (nodes : List NodeModel) :
    ∀ insts, buildInstances nodes = .ok insts →
      insts.map Prod.fst = nodes.map NodeModel.id := by
  induction nodes with
  | nil => intro insts h; cases h; rfl
  | cons m rest ih =>
    intro insts h
    unfold buildInstances at h
    split at h
    · cases h
    · split at h
      · cases h
      · cases h
        simp only [List.map_cons]
        congr 1
        exact ih _ (by assumption)

theorem buildInstances_condition_routes (nodes : List NodeModel) :
    ∀ insts id b cfg, buildInstances nodes = .ok insts →
      mapGet insts id = some (.conditionInst b cfg) →
      cfg.trueRoute = "" ∧ cfg.falseRoute = "" := by
  induction nodes with
  | nil =>
    intro insts id b cfg h hget
    cases h
    cases hget
  | cons m rest ih =>
    intro insts id b cfg h hget
    unfold buildInstances at h
    split at h
    · cases h
    · rename_i inst hcreate
      split at h
      · cases h
      · rename_i tl htl
        cases h
        simp only [mapGet] at hget
        rcases hrest : mapGet tl id with _ | w
        · rw [hrest] at hget
          simp only [] at hget
          split at hget
          · cases hget
            exact registryCreate_condition_routes m b cfg hcreate
          · cases hget
        · rw [hrest] at hget
          simp only [] at hget
          cases hget
          exact ih tl id b cfg htl hrest

/-- The invariant linking condition-node routes to the routing table: every
condition instance's configured route is either empty or a routing-table
entry for its own id. -/
def RoutesOK (edges : List EdgeModel) (insts : List (String × NodeInst)) : Prop :=
  ∀ id b cfg, mapGet insts id = some (.conditionInst b cfg) →
    (cfg.trueRoute = "" ∨ routeLookup edges id "true" = some cfg.trueRoute) ∧
    (cfg.falseRoute = "" ∨ routeLookup edges id "false" = some cfg.falseRoute)

theorem initializeWorkflow_routesOK (wf : Workflow) (insts : List (String × NodeInst))
    (startID : String) (h : initializeWorkflow wf = .ok (insts, startID)) :
    RoutesOK wf.edges insts := by
  unfold initializeWorkflow at h
  split at h
  · cases h
  · rename_i built hbuilt
    by_cases hs : (startIDOf built == "") = true
    · rw [if_pos hs] at h; cases h
    · rw [if_neg hs] at h
      cases h
      intro id b cfg hget
      rw [show (built.map (fun p => (p.1, configureInst wf.edges p.1 p.2))) =
          (built.map (fun p => (p.1, (fun k i => configureInst wf.edges k i) p.1 p.2))) from rfl,
        mapGet_map] at hget
      rcases h0 : mapGet built id with _ | inst0
      · rw [h0] at hget; cases hget
      · rw [h0] at hget
        simp only [Option.map_some'] at hget
        cases inst0 with
        | conditionInst b0 cfg0 =>
          simp only [configureInst, Option.some.injEq, NodeInst.conditionInst.injEq] at hget
          obtain ⟨hb, hc⟩ := hget
          obtain ⟨ht0, hf0⟩ := buildInstances_condition_routes wf.nodes built id b0 cfg0 hbuilt h0
          subst hc
          constructor
          · rcases hT : routeLookup wf.edges id "true" with _ | t
            · left; simp [hT, ht0]
            · right; simp [hT]
          · rcases hF : routeLookup wf.edges id "false" with _ | t
            · left; simp [hF, hf0]
            · right; simp [hF]
        | startInst b0 => simp [configureInst] at hget
        | formInst b0 => simp [configureInst] at hget
        | integrationInst b0 c0 => simp [configureInst] at hget
        | emailInst b0 v0 t0 => simp [configureInst] at hget
        | endInst b0 => simp [configureInst] at hget

theorem execCondition_inst (b : BaseNode) (cfg : ConditionConfig) (inp : NodeInputs) :
    (execCondition b cfg inp).2.2 = .conditionInst b cfg := by
  simp only [execCondition]
  split <;> rfl

theorem execIntegration_inst (oracle : Oracle) (b : BaseNode) (cfg : IntegrationConfig)
    (inp : NodeInputs) :
    ∃ b', (execIntegration oracle b cfg inp).2.2 = .integrationInst b' cfg := by
  simp only [execIntegration]
  repeat' split
  all_goals exact ⟨_, rfl⟩

theorem execEmail_inst (b : BaseNode) (vars : List String) (tpl : EmailTemplate)
    (inp : NodeInputs) :
    (execEmail b vars tpl inp).2.2 = .emailInst b vars tpl := by
  simp only [execEmail]
  repeat' split
  all_goals rfl

theorem execNode_conditionInst_inv (oracle : Oracle) (inst : NodeInst) (inp : NodeInputs)
    (b : BaseNode) (cfg : ConditionConfig)
    (h : (execNode oracle inst inp).2.2 = .conditionInst b cfg) :
    ∃ b₀, inst = .conditionInst b₀ cfg := by
  cases inst with
  | startInst b₀ => simp [execNode, execStart] at h
  | formInst b₀ => simp [execNode, execForm] at h
  | endInst b₀ => simp [execNode, execEnd] at h
  | integrationInst b₀ c₀ =>
    obtain ⟨b', he⟩ := execIntegration_inst oracle b₀ c₀ inp
    rw [show (execNode oracle (.integrationInst b₀ c₀) inp) = execIntegration oracle b₀ c₀ inp
      from rfl, he] at h
    cases h
  | emailInst b₀ v₀ t₀ =>
    rw [show (execNode oracle (.emailInst b₀ v₀ t₀) inp) = execEmail b₀ v₀ t₀ inp from rfl,
      execEmail_inst] at h
    cases h
  | conditionInst b₀ cfg₀ =>
    rw [show (execNode oracle (.conditionInst b₀ cfg₀) inp) = execCondition b₀ cfg₀ inp
      from rfl, execCondition_inst] at h
    cases h
    exact ⟨_, rfl⟩

theorem execIntegration_nextNodeID (oracle : Oracle) (b : BaseNode) (cfg : IntegrationConfig)
    (inp : NodeInputs) : (execIntegration oracle b cfg inp).1.nextNodeID = "" := by
  simp only [execIntegration]
  repeat' split
  all_goals rfl

theorem execEmail_nextNodeID (b : BaseNode) (vars : List String) (tpl : EmailTemplate)
    (inp : NodeInputs) : (execEmail b vars tpl inp).1.nextNodeID = "" := by
  simp only [execEmail]
  repeat' split
  all_goals rfl

theorem execCondition_nextNodeID (b : BaseNode) (cfg : ConditionConfig) (inp : NodeInputs) :
    (execCondition b cfg inp).1.nextNodeID = "" ∨
    (execCondition b cfg inp).1.nextNodeID = cfg.trueRoute ∨
    (execCondition b cfg inp).1.nextNodeID = cfg.falseRoute := by
  simp only [execCondition]
  split
  · rename_i q _
    by_cases hmet : (if (inp.workflowInput.operator == operatorGreaterThan) = true then
        decide (q > inp.workflowInput.threshold)
      else if (inp.workflowInput.operator == operatorLessThan) = true then
        decide (q < inp.workflowInput.threshold)
      else if (inp.workflowInput.operator == operatorEquals) = true then
        decide (q = inp.workflowInput.threshold)
      else if (inp.workflowInput.operator == operatorGreaterThanOrEqual) = true then
        decide (q ≥ inp.workflowInput.threshold)
      else if (inp.workflowInput.operator == operatorLessThanOrEqual) = true then
        decide (q ≤ inp.workflowInput.threshold)
      else false) = true
    · right; left; simp only [hmet, if_true]
    · right; right
      simp only [Bool.not_eq_true] at hmet
      simp only [hmet, if_false, Bool.false_eq_true]
  · left; rfl

theorem execNode_nextNodeID (oracle : Oracle) (inst : NodeInst) (inp : NodeInputs) :
    (execNode oracle inst inp).1.nextNodeID = "" ∨
    ∃ b cfg, inst = .conditionInst b cfg ∧
      ((execNode oracle inst inp).1.nextNodeID = cfg.trueRoute ∨
       (execNode oracle inst inp).1.nextNodeID = cfg.falseRoute) := by
  cases inst with
  | startInst b => left; rfl
  | formInst b => left; rfl
  | endInst b => left; rfl
  | integrationInst b c => left; exact execIntegration_nextNodeID oracle b c inp
  | emailInst b v t => left; exact execEmail_nextNodeID b v t inp
  | conditionInst b cfg =>
    rcases execCondition_nextNodeID b cfg inp with h | h | h
    · left; exact h
    · right; exact ⟨b, cfg, rfl, .inl h⟩
    · right; exact ⟨b, cfg, rfl, .inr h⟩

theorem routeLookup_mem (edges : List EdgeModel) (src key t : String)
    (h : routeLookup edges src key = some t) : edgeStepB edges src t = true := by
  induction edges with
  | nil => cases h
  | cons e rest ih =>
    simp only [routeLookup] at h
    rcases hr : routeLookup rest src key with _ | t'
    · rw [hr] at h
      simp only [] at h
      split at h
      · rename_i hcond
        cases h
        simp only [edgeStepB, List.any_cons, Bool.or_eq_true]
        left
        simp only [Bool.and_eq_true] at hcond ⊢
        exact ⟨hcond.1, by simp⟩
      · cases h
    · rw [hr] at h
      simp only [] at h
      cases h
      have := ih hr
      simp only [edgeStepB, List.any_cons, Bool.or_eq_true]
      right
      exact this

theorem edgeStepB_target_mem (edges : List EdgeModel) (ids : List String) (a b : String)
    (h : edgeStepB edges a b = true) (htgt : ∀ e ∈ edges, e.target ∈ ids) : b ∈ ids := by
  obtain ⟨e, he, hpred⟩ := List.any_eq_true.mp h
  simp only [Bool.and_eq_true] at hpred
  have : e.target = b := by simpa using hpred.2
  exact this ▸ htgt e he

theorem findNextNode_ok_spec (inst : NodeInst) (cur : String) (outputs : NodeOutputs)
    (edges : List EdgeModel) (nxt : String)
    (h : findNextNode inst cur outputs edges = .ok nxt) :
    (nxt = outputs.nextNodeID ∧ outputs.nextNodeID ≠ "") ∨
    ∃ k, routeLookup edges cur k = some nxt := by
  simp only [findNextNode] at h
  by_cases hne : (outputs.nextNodeID != "") = true
  · rw [if_pos hne] at h
    cases h
    left
    exact ⟨rfl, by simpa using hne⟩
  · rw [if_neg hne] at h
    split at h
    · rename_i t heq
      cases h
      by_cases htag : (inst.typeTag == nodeTypeCondition) = true
      · rw [if_pos htag] at heq
        exact .inr ⟨_, heq⟩
      · rw [if_neg htag] at heq
        cases heq
    · split at h
      · rename_i t heq
        cases h
        exact .inr ⟨"", heq⟩
      · cases h

theorem routesOK_mapSet (oracle : Oracle) (edges : List EdgeModel)
    (insts : List (String × NodeInst)) (cur : String) (inst : NodeInst) (inp : NodeInputs)
    (hro : RoutesOK edges insts) (hinst : mapGet insts cur = some inst) :
    RoutesOK edges (mapSet insts cur (execNode oracle inst inp).2.2) := by
  intro id b cfg h
  rw [mapGet_mapSet] at h
  by_cases hc : (cur == id) = true
  · rw [if_pos hc] at h
    have hcur : cur = id := by simpa using hc
    subst hcur
    have h22 : (execNode oracle inst inp).2.2 = .conditionInst b cfg := Option.some.inj h
    obtain ⟨b₀, rfl⟩ := execNode_conditionInst_inv oracle inst inp b cfg h22
    exact hro cur b₀ cfg hinst
  · rw [if_neg hc] at h
    exact hro id b cfg h

theorem runLoop_step_edge (oracle : Oracle) (edges : List EdgeModel)
    (insts : List (String × NodeInst)) (cur nxt : String) (inst : NodeInst) (inp : NodeInputs)
    (hro : RoutesOK edges insts) (hinst : mapGet insts cur = some inst)
    (hfind : findNextNode (execNode oracle inst inp).2.2 cur (execNode oracle inst inp).1 edges =
      .ok nxt) :
    edgeStepB edges cur nxt = true := by
  rcases findNextNode_ok_spec _ _ _ _ _ hfind with ⟨rfl, hne⟩ | ⟨k, hk⟩
  · rcases execNode_nextNodeID oracle inst inp with h0 | ⟨b, cfg, rfl, hroute⟩
    · exact absurd h0 hne
    · obtain ⟨hT, hF⟩ := hro cur b cfg hinst
      rcases hroute with hr | hr
      · rw [hr] at hne ⊢
        rcases hT with h | h
        · exact absurd h hne
        · exact routeLookup_mem edges cur "true" _ h
      · rw [hr] at hne ⊢
        rcases hF with h | h
        · exact absurd h hne
        · exact routeLookup_mem edges cur "false" _ h
  · exact routeLookup_mem edges cur k nxt hk

theorem runLoop_outOfFuel_walk (oracle : Oracle) (input : WorkflowInput)
    (edges : List EdgeModel) (wfID : String) (ids : List String)
    (htgt : ∀ e ∈ edges, e.target ∈ ids) :
    ∀ fuel insts cur stepNumber steps prior,
      RoutesOK edges insts →
      runLoop oracle input edges wfID fuel insts cur stepNumber steps prior = .outOfFuel →
      ∃ l : List String, l.length = fuel ∧
        List.Chain (fun a b => edgeStepB edges a b = true) cur l ∧
        ∀ x ∈ l, x ∈ ids := by
  intro fuel
  induction fuel with
  | zero =>
    intro insts cur stepNumber steps prior _ _
    exact ⟨[], rfl, .nil, by simp⟩
  | succ fuel ih =>
    intro insts cur stepNumber steps prior hro h
    rcases hinst : mapGet insts cur with _ | inst
    · rw [show runLoop oracle input edges wfID (fuel + 1) insts cur stepNumber steps prior =
        (match mapGet insts cur with
         | none => .callError ("node " ++ cur ++ " not found in workflow")
         | some inst =>
           let r := execNode oracle inst ⟨input, [], prior⟩
           let step := { createExecutionStep r.2.2 cur r.1 with stepNumber := stepNumber }
           let steps' := steps ++ [step]
           let prior' := mapSet prior cur r.1
           if r.2.1.isSome || r.1.status == statusFailed then
             .record ⟨wfID, statusFailed, steps'⟩
           else if r.2.2.typeTag == nodeTypeEnd then
             .record ⟨wfID, statusCompleted, steps'⟩
           else
             match findNextNode r.2.2 cur r.1 edges with
             | .error msg => .callError msg
             | .ok nextNodeID =>
               runLoop oracle input edges wfID fuel (mapSet insts cur r.2.2)
                 nextNodeID (stepNumber + 1) steps' prior') from rfl, hinst] at h
      cases h
    · simp only [runLoop, hinst] at h
      by_cases hcond : ((execNode oracle inst ⟨input, [], prior⟩).2.1.isSome ||
          (execNode oracle inst ⟨input, [], prior⟩).1.status == statusFailed) = true
      · rw [if_pos hcond] at h
        cases h
      · rw [if_neg hcond] at h
        by_cases hend : ((execNode oracle inst ⟨input, [], prior⟩).2.2.typeTag ==
            nodeTypeEnd) = true
        · rw [if_pos hend] at h
          cases h
        · rw [if_neg hend] at h
          rcases hfind : findNextNode (execNode oracle inst ⟨input, [], prior⟩).2.2 cur
              (execNode oracle inst ⟨input, [], prior⟩).1 edges with msg | nxt
          · rw [hfind] at h
            cases h
          · rw [hfind] at h
            obtain ⟨l, hlen, hchain, hmem⟩ :=
              ih (mapSet insts cur (execNode oracle inst ⟨input, [], prior⟩).2.2) nxt
                (stepNumber + 1) _ _
                (routesOK_mapSet oracle edges insts cur inst ⟨input, [], prior⟩ hro hinst) h
            have hstep : edgeStepB edges cur nxt = true :=
              runLoop_step_edge oracle edges insts cur nxt inst ⟨input, [], prior⟩
                hro hinst hfind
            refine ⟨nxt :: l, by simp [hlen], .cons hstep hchain, ?_⟩
            intro x hx
            rcases List.mem_cons.mp hx with rfl | hx'
            · exact edgeStepB_target_mem edges ids cur x hstep htgt
            · exact hmem x hx'

theorem reachesWithin_mono (edges : List EdgeModel) :
    ∀ n m a b, n ≤ m → reachesWithin edges n a b = true → reachesWithin edges m a b = true := by
  intro n
  induction n with
  | zero => intro m a b _ h; cases h
  | succ n ih =>
    intro m a b hnm h
    obtain ⟨m', rfl⟩ : ∃ m', m = m' + 1 := ⟨m - 1, by omega⟩
    simp only [reachesWithin, List.any_eq_true] at h ⊢
    obtain ⟨e, he, hp⟩ := h
    refine ⟨e, he, ?_⟩
    simp only [Bool.and_eq_true, Bool.or_eq_true] at hp ⊢
    refine ⟨hp.1, ?_⟩
    rcases hp.2 with h' | h'
    · exact .inl h'
    · exact .inr (ih m' e.target b (by omega) h')

theorem step_and_reach (edges : List EdgeModel) (a c b : String) (n : Nat)
    (hs : edgeStepB edges a c = true)
    (hr : c = b ∨ reachesWithin edges n c b = true) :
    reachesWithin edges (n + 1) a b = true := by
  simp only [edgeStepB, List.any_eq_true, Bool.and_eq_true] at hs
  obtain ⟨e, he, h1, h2⟩ := hs
  simp only [reachesWithin, List.any_eq_true]
  refine ⟨e, he, ?_⟩
  simp only [Bool.and_eq_true, Bool.or_eq_true]
  refine ⟨h1, ?_⟩
  have hc : e.target = c := by simpa using h2
  rcases hr with rfl | hr
  · left; simp [hc]
  · right; rw [hc]; exact hr

theorem chainReach (edges : List EdgeModel) :
    ∀ (s : List String) (a b : String),
      List.Chain (fun x y => edgeStepB edges x y = true) a s → s.getLast? = some b →
      reachesWithin edges s.length a b = true := by
  intro s
  induction s with
  | nil => intro a b _ h; cases h
  | cons x t ih =>
    intro a b hchain hlast
    cases hchain with
    | cons hstep htail =>
      cases t with
      | nil =>
        have hb : x = b := by simpa using hlast
        subst hb
        exact step_and_reach edges a x x 0 hstep (.inl rfl)
      | cons y u =>
        have hlast' : (y :: u).getLast? = some b := by simpa using hlast
        exact step_and_reach edges a x b ((y :: u).length) hstep
          (.inr (ih x b htail hlast'))

theorem chain_take {R : String → String → Prop} :
    ∀ (l₁ : List String) (a : String) (l₂ : List String),
      List.Chain R a (l₁ ++ l₂) → List.Chain R a l₁ := by
  intro l₁
  induction l₁ with
  | nil => intro a l₂ _; exact .nil
  | cons x t ih =>
    intro a l₂ h
    cases h with
    | cons hstep htail => exact .cons hstep (ih x l₂ htail)

theorem chain_drop {R : String → String → Prop} :
    ∀ (l₁ : List String) (a c : String) (l₂ : List String),
      List.Chain R a (l₁ ++ l₂) → (a :: l₁).getLast? = some c → List.Chain R c l₂ := by
  intro l₁
  induction l₁ with
  | nil =>
    intro a c l₂ h hlast
    have hac : a = c := by simpa using hlast
    subst hac
    exact h
  | cons x t ih =>
    intro a c l₂ h hlast
    cases h with
    | cons hstep htail =>
      have hlast' : (x :: t).getLast? = some c := by simpa using hlast
      exact ih x c l₂ htail hlast'

theorem not_nodup_decomp {α : Type} : ∀ (l : List α), ¬ l.Nodup →
    ∃ (a : α) (l₁ l₂ l₃ : List α), l = l₁ ++ a :: l₂ ++ a :: l₃ := by
  intro l
  induction l with
  | nil => intro h; exact absurd List.nodup_nil h
  | cons x xs ih =>
    intro h
    by_cases hx : x ∈ xs
    · obtain ⟨s, t, rfl⟩ := List.append_of_mem hx
      exact ⟨x, [], s, t, by simp⟩
    · have hxs : ¬ xs.Nodup := by
        intro hn
        exact h (List.nodup_cons.mpr ⟨hx, hn⟩)
      obtain ⟨a, l₁, l₂, l₃, rfl⟩ := ih hxs
      exact ⟨a, x :: l₁, l₂, l₃, by simp⟩

theorem walk_cycle (edges : List EdgeModel) (ids : List String) (cur : String)
    (l : List String)
    (hchain : List.Chain (fun a b => edgeStepB edges a b = true) cur l)
    (hmem : ∀ x ∈ cur :: l, x ∈ ids)
    (hlen : l.length = ids.length) :
    ∃ v, v ∈ ids ∧ reachesWithin edges ids.length v v = true := by
  have hnotnodup : ¬ (cur :: l).Nodup := by
    intro hn
    have h1 : (cur :: l).toFinset.card = (cur :: l).length := List.toFinset_card_of_nodup hn
    have h2 : (cur :: l).toFinset ⊆ ids.toFinset := by
      intro x hx
      rw [List.mem_toFinset] at hx ⊢
      exact hmem x hx
    have h3 := Finset.card_le_card h2
    have h4 : ids.toFinset.card ≤ ids.length := ids.toFinset_card_le
    rw [h1] at h3
    simp only [List.length_cons, hlen] at h3
    omega
  obtain ⟨v, l₁, l₂, l₃, hdecomp⟩ := not_nodup_decomp _ hnotnodup
  have hvmem : v ∈ ids := by
    refine hmem v ?_
    rw [hdecomp]
    simp
  cases l₁ with
  | nil =>
    have hcur : cur = v := by
      have := congrArg List.head? hdecomp
      simpa using this
    have hl : l = (l₂ ++ [v]) ++ l₃ := by
      have := congrArg List.tail hdecomp
      simpa using this
    rw [hl, hcur] at hchain
    have hseg := chain_take (l₂ ++ [v]) v l₃ hchain
    have hre := chainReach edges (l₂ ++ [v]) v v hseg (List.getLast?_concat _)
    refine ⟨v, hvmem, reachesWithin_mono edges _ _ _ _ ?_ hre⟩
    have hlen2 : l.length = l₂.length + 1 + l₃.length := by
      rw [hl]
      simp only [List.length_append, List.length_cons, List.length_nil]
    simp only [List.length_append, List.length_cons, List.length_nil]
    omega
  | cons x t =>
    have hl : l = (t ++ [v]) ++ ((l₂ ++ [v]) ++ l₃) := by
      have := congrArg List.tail hdecomp
      simpa using this
    rw [hl, ← List.append_assoc] at hchain
    have h1 := chain_take ((t ++ [v]) ++ (l₂ ++ [v])) cur l₃ hchain
    have hlastseg : (cur :: (t ++ [v])).getLast? = some v := by
      rw [show cur :: (t ++ [v]) = (cur :: t) ++ [v] from rfl]
      exact List.getLast?_concat _
    have h2 := chain_drop (t ++ [v]) cur v (l₂ ++ [v]) h1 hlastseg
    have hre := chainReach edges (l₂ ++ [v]) v v h2 (List.getLast?_concat _)
    refine ⟨v, hvmem, reachesWithin_mono edges _ _ _ _ ?_ hre⟩
    have hlen2 : l.length = t.length + 1 + (l₂.length + 1 + l₃.length) := by
      rw [hl]
      simp only [List.length_append, List.length_cons, List.length_nil]
    simp only [List.length_append, List.length_cons, List.length_nil]
    omega

theorem getLast?_mem {α : Type} : ∀ (l : List α) (a : α), l.getLast? = some a → a ∈ l := by
  intro l
  induction l with
  | nil => intro a h; cases h
  | cons x t ih =>
    intro a h
    cases t with
    | nil =>
      have : x = a := by simpa using h
      simp [this]
    | cons y u =>
      rw [List.getLast?_cons_cons] at h
      exact List.mem_cons_of_mem _ (ih a h)

theorem initializeWorkflow_start_mem (wf : Workflow) (insts : List (String × NodeInst))
    (startID : String) (h : initializeWorkflow wf = .ok (insts, startID)) :
    startID ∈ wf.nodes.map NodeModel.id := by
  unfold initializeWorkflow at h
  split at h
  · cases h
  · rename_i built hbuilt
    by_cases hs : (startIDOf built == "") = true
    · rw [if_pos hs] at h; cases h
    · rw [if_neg hs] at h
      cases h
      rw [← buildInstances_keys wf.nodes built hbuilt]
      unfold startIDOf
      rcases hg : (built.filter (fun p => p.2.typeTag == nodeTypeStart)).getLast? with _ | p
      · exfalso
        apply hs
        unfold startIDOf
        rw [hg]
        rfl
      · simp only [hg, Option.map_some', Option.getD_some]
        exact List.mem_map.mpr ⟨p, List.mem_of_mem_filter (getLast?_mem _ p hg), rfl⟩

/-- C3 (amended): for every workflow accepted by the validator, with no
duplicate `(source, routeKey)` pair AND an acyclic edge relation, the
engine's traversal terminates after at most `len(nodes)` executed steps
(running the fuel-indexed loop with `len(nodes)` steps of fuel never
exhausts it).  Acyclicity is necessary: the validator does not reject
cycles, and a cyclic graph loops forever (see the counterexample). -/
theorem c3_acyclic_traversal_terminates (wf : Workflow) (input : WorkflowInput)
    (oracle : Oracle)
    (hval : validateWorkflowStructure wf.nodes wf.edges = none)
    (_hpairs : (wf.edges.map (fun e => (e.source, e.sourceHandle))).Nodup)
    (hacyc : acyclicB wf.nodes wf.edges = true) :
    engineExecute oracle wf.nodes.length wf input ≠ .outOfFuel := by
  intro h
  unfold engineExecute at h
  split at h
  · cases h
  · rename_i insts startID hinit
    obtain ⟨_, _, _, _, _, _, hedges, _⟩ := (validate_none_iff_accepted wf.nodes wf.edges).1 hval
    have htgt : ∀ e ∈ wf.edges, e.target ∈ wf.nodes.map NodeModel.id :=
      fun e he => (hedges e he).2.2.2.2
    have hro := initializeWorkflow_routesOK wf insts startID hinit
    obtain ⟨l, hlen, hchain, hmem⟩ :=
      runLoop_outOfFuel_walk oracle input wf.edges wf.id (wf.nodes.map NodeModel.id) htgt
        wf.nodes.length insts startID 1 [] [] hro h
    have hstart : startID ∈ wf.nodes.map NodeModel.id :=
      initializeWorkflow_start_mem wf insts startID hinit
    have hmem' : ∀ x ∈ startID :: l, x ∈ wf.nodes.map NodeModel.id := by
      intro x hx
      rcases List.mem_cons.mp hx with rfl | hx'
      · exact hstart
      · exact hmem x hx'
    obtain ⟨v, hv, hreach⟩ := walk_cycle wf.edges (wf.nodes.map NodeModel.id) startID l
      hchain hmem' (by rw [hlen, List.length_map])
    have hall := (List.all_eq_true.mp hacyc) v hv
    rw [hreach] at hall
    cases hall

/-- A validator-accepted workflow with a cycle: `form` routes back to
itself via its unconditional edge; the edge pairs are distinct. -/
def cyclicWorkflow : Workflow :=
  ⟨"wf-cyclic", "cyclic", 1,
   [⟨"start", "start", ⟨"Start", "", []⟩⟩,
    ⟨"form", "form", ⟨"Form", "", []⟩⟩,
    ⟨"end", "end", ⟨"End", "", []⟩⟩],
   [⟨"e1", "start", "form", ""⟩,
    ⟨"e2", "form", "form", ""⟩]⟩

/-- C3, counterexample: a workflow accepted by the validator, with no
duplicate `(source, routeKey)` pair, whose traversal is still running
after `len(nodes)` executed steps — the validator performs no
connectivity or cycle check, so the claimed bound is false as stated. -/
theorem c3_counterexample :
    validateWorkflowStructure cyclicWorkflow.nodes cyclicWorkflow.edges = none ∧
    (cyclicWorkflow.edges.map (fun e => (e.source, e.sourceHandle))).Nodup ∧
    engineExecute demoOracle cyclicWorkflow.nodes.length cyclicWorkflow condDemoInput =
      .outOfFuel := by
  refine ⟨by decide, by decide, ?_⟩
  rfl

/-- A validator-accepted acyclic two-node workflow. -/
def linearWorkflow : Workflow :=
  ⟨"wf-linear", "linear", 1,
   [⟨"start", "start", ⟨"Start", "", []⟩⟩,
    ⟨"end", "end", ⟨"End", "", []⟩⟩],
   [⟨"e1", "start", "end", ""⟩]⟩

/-- C3, witness: the amended termination theorem applied to a concrete
validated acyclic workflow. -/
theorem c3_witness :
    validateWorkflowStructure linearWorkflow.nodes linearWorkflow.edges = none ∧
    (linearWorkflow.edges.map (fun e => (e.source, e.sourceHandle))).Nodup ∧
    acyclicB linearWorkflow.nodes linearWorkflow.edges = true ∧
    engineExecute demoOracle linearWorkflow.nodes.length linearWorkflow condDemoInput ≠
      .outOfFuel :=
  ⟨by decide, by decide, by decide,
    c3_acyclic_traversal_terminates linearWorkflow condDemoInput demoOracle
      (by decide) (by decide) (by decide)⟩

end WeatherAlert
